import Mathlib

/-!
Shallow embedding of the quiz-forge repository (TypeScript) in Lean 4.

The embedding models the untyped JavaScript values flowing through
`sanitizeQuizData` (src/unnamed/part_000), the result-resolution logic of the
rendered quiz script (src/services/aiService.ts, `renderQuizToStaticHtml`),
the two content inserters (`insertSnippetIntoContent` in aiService.ts and
`insertShortcodeIntoContent` in part_000), and the shortcode regular
expressions (src/constants.ts).

JavaScript numbers are modelled as integers (`Int`); the sanitizer only
compares, bounds-checks and string-coerces them, and no claim depends on
non-integral floats.  `parseInt` failure (NaN) is modelled as `Option.none`.
-/

/-- Untyped JavaScript value, as needed by the sanitizer: `null`, `undefined`,
booleans, (integer) numbers, strings, arrays and plain objects. -/
inductive JSValue where
  | vNull : JSValue
  | vUndefined : JSValue
  | vBool : Bool → JSValue
  | vNum : Int → JSValue
  | vStr : String → JSValue
  | vArr : List JSValue → JSValue
  | vObj : List (String × JSValue) → JSValue
deriving Repr

mutual

/-- Boolean structural equality on `JSValue`. -/
def JSValue.beq : JSValue → JSValue → Bool
  | .vNull, .vNull => true
  | .vUndefined, .vUndefined => true
  | .vBool a, .vBool b => a == b
  | .vNum a, .vNum b => a == b
  | .vStr a, .vStr b => a == b
  | .vArr a, .vArr b => JSValue.beqList a b
  | .vObj a, .vObj b => JSValue.beqFields a b
  | _, _ => false

/-- Elementwise equality of value lists. -/
def JSValue.beqList : List JSValue → List JSValue → Bool
  | [], [] => true
  | a :: as_, b :: bs => JSValue.beq a b && JSValue.beqList as_ bs
  | _, _ => false

/-- Elementwise equality of object field lists. -/
def JSValue.beqFields : List (String × JSValue) → List (String × JSValue) → Bool
  | [], [] => true
  | (ka, va) :: as_, (kb, vb) :: bs =>
      ka == kb && JSValue.beq va vb && JSValue.beqFields as_ bs
  | _, _ => false

end

mutual

theorem JSValue.beq_iff : ∀ a b : JSValue, JSValue.beq a b = true ↔ a = b
  | .vNull, b => by cases b <;> simp [JSValue.beq]
  | .vUndefined, b => by cases b <;> simp [JSValue.beq]
  | .vBool a, b => by cases b <;> simp [JSValue.beq]
  | .vNum a, b => by cases b <;> simp [JSValue.beq]
  | .vStr a, b => by cases b <;> simp [JSValue.beq]
  | .vArr a, b => by
      cases b <;> simp [JSValue.beq]
      exact JSValue.beqList_iff a _
  | .vObj a, b => by
      cases b <;> simp [JSValue.beq]
      exact JSValue.beqFields_iff a _

theorem JSValue.beqList_iff : ∀ a b : List JSValue, JSValue.beqList a b = true ↔ a = b
  | [], b => by cases b <;> simp [JSValue.beqList]
  | x :: xs, b => by
      cases b with
      | nil => simp [JSValue.beqList]
      | cons y ys =>
          simp only [JSValue.beqList, Bool.and_eq_true, List.cons.injEq]
          exact and_congr (JSValue.beq_iff x y) (JSValue.beqList_iff xs ys)

theorem JSValue.beqFields_iff :
    ∀ a b : List (String × JSValue), JSValue.beqFields a b = true ↔ a = b
  | [], b => by cases b <;> simp [JSValue.beqFields]
  | (k, v) :: xs, b => by
      cases b with
      | nil => simp [JSValue.beqFields]
      | cons y ys =>
          obtain ⟨k2, v2⟩ := y
          simp only [JSValue.beqFields, Bool.and_eq_true, List.cons.injEq,
            Prod.mk.injEq, beq_iff_eq]
          rw [JSValue.beq_iff v v2, JSValue.beqFields_iff xs ys]

end

instance : DecidableEq JSValue := fun a b =>
  decidable_of_iff (JSValue.beq a b = true) (JSValue.beq_iff a b)

/-- JavaScript truthiness: `null`, `undefined`, `false`, `0` and the empty
string are falsy; every other value (including all arrays and objects) is
truthy. -/
def truthy : JSValue → Bool
  | .vNull => false
  | .vUndefined => false
  | .vBool b => b
  | .vNum n => n ≠ 0
  | .vStr s => s ≠ ""
  | .vArr _ => true
  | .vObj _ => true

/-- Short-circuit `a || b` of JavaScript, returning the value. -/
def jsOr (a b : JSValue) : JSValue := if truthy a then a else b

/-- Property lookup on an object field list; a later duplicate key wins, as in
JavaScript object literals and `JSON.parse`. -/
def lookupLast : List (String × JSValue) → String → Option JSValue
  | [], _ => none
  | (k, v) :: rest, key =>
      match lookupLast rest key with
      | some w => some w
      | none => if k = key then some v else none

/-- Property access `v[key]`: fields of objects, `undefined` everywhere else
(named properties of arrays, strings, numbers and booleans are absent in this
model; `.length` of arrays is handled structurally where the code uses it). -/
def getField : JSValue → String → JSValue
  | .vObj fs, key => (lookupLast fs key).getD .vUndefined
  | _, _ => .vUndefined

/-- Test for `typeof v === \x27object\x27`, which is true for objects, arrays
and `null`. -/
def jsTypeofObject : JSValue → Bool
  | .vNull => true
  | .vArr _ => true
  | .vObj _ => true
  | _ => false

/-- Test for a plain object. -/
def isObj : JSValue → Bool
  | .vObj _ => true
  | _ => false

/-- Decimal digit characters of a natural number (most significant first). -/
def natDecimal (n : Nat) : List Char :=
  if h : n < 10 then [Char.ofNat (48 + n)]
  else natDecimal (n / 10) ++ [Char.ofNat (48 + n % 10)]
decreasing_by exact Nat.div_lt_self (by omega) (by omega)

/-- Decimal rendering of an integer, as JavaScript `String(number)` renders
an integral number. -/
def intDecimal (i : Int) : String :=
  if i < 0 then ⟨'-' :: natDecimal (-i).toNat⟩ else ⟨natDecimal i.toNat⟩

mutual

/-- JavaScript `String(v)` coercion: `"null"`, `"undefined"`, booleans and
integers in decimal, strings unchanged, arrays joined with commas where
`null`/`undefined` elements become empty, objects as `"[object Object]"`. -/
def jsToString : JSValue → String
  | .vNull => "null"
  | .vUndefined => "undefined"
  | .vBool b => if b then "true" else "false"
  | .vNum n => intDecimal n
  | .vStr s => s
  | .vObj _ => "[object Object]"
  | .vArr xs => String.intercalate "," (jsArrStrings xs)

/-- Element strings of `Array.prototype.join(",")`. -/
def jsArrStrings : List JSValue → List String
  | [] => []
  | .vNull :: vs => "" :: jsArrStrings vs
  | .vUndefined :: vs => "" :: jsArrStrings vs
  | v :: vs => jsToString v :: jsArrStrings vs

end

/-- Whitespace characters recognised by JavaScript `\s`, `trim` and
`parseInt` (ASCII subset). -/
def wsChar (c : Char) : Bool :=
  c = ' ' || c = '\t' || c = '\n' || c = '\r' || c = '\x0b' || c = '\x0c'

/-- Numeric value of a leading decimal digit run. -/
def digitsVal (ds : List Char) : Nat :=
  ds.foldl (fun a c => a * 10 + (c.toNat - 48)) 0

/-- JavaScript `parseInt(s, 10)`: skip leading whitespace, optional sign,
then a maximal run of decimal digits; `none` models `NaN` (no digits). -/
def parseIntJS (s : String) : Option Int :=
  let cs := s.data.dropWhile wsChar
  match cs with
  | '-' :: rest =>
      let ds := rest.takeWhile Char.isDigit
      if ds.isEmpty then none else some (-(digitsVal ds : Int))
  | '+' :: rest =>
      let ds := rest.takeWhile Char.isDigit
      if ds.isEmpty then none else some (digitsVal ds : Int)
  | _ =>
      let ds := cs.takeWhile Char.isDigit
      if ds.isEmpty then none else some (digitsVal ds : Int)

/-- Quiz type after sanitization. -/
inductive QuizType where
  | knowledgeCheck : QuizType
  | personality : QuizType
deriving DecidableEq, Repr

/-- Sanitized quiz structure (`QuizData` in types.ts).  Questions, result
tiers and outcomes stay as JavaScript values because the sanitizer treats
part of them opaquely (personality questions pass through untouched). -/
structure QuizDataS where
  quizTitle : JSValue
  quizType : QuizType
  questions : List JSValue
  results : Option (List JSValue)
  outcomes : Option (List JSValue)
deriving DecidableEq, Repr

/-- Quiz type chosen by the sanitizer:
`data.quizType === \x27personality\x27 ? \x27personality\x27 :
\x27knowledge-check\x27`. -/
def quizTypeOf (data : JSValue) : QuizType :=
  if getField data "quizType" = .vStr "personality" then .personality
  else .knowledgeCheck

/-- Question filter of `sanitizeQuizData`:
`q && typeof q === \x27object\x27 && q.questionText &&
Array.isArray(q.options) && q.options.length > 1`. -/
def questionFilter (q : JSValue) : Bool :=
  truthy q && jsTypeofObject q && truthy (getField q "questionText") &&
    (match getField q "options" with
      | .vArr os => decide (os.length > 1)
      | _ => false)

/-- The `options` array of a question (the filter guarantees the array case;
`.map` on a non-array would throw in JavaScript and is unreachable). -/
def kcOptions (q : JSValue) : List JSValue :=
  match getField q "options" with
  | .vArr os => os
  | _ => []

/-- The bounded `correctAnswerIndex`: `parseInt(String(value), 10)` when the
field is neither `undefined` nor `null` (`-1` otherwise), defaulted to `0`
when `NaN`, negative, or not below `options.length`. -/
def kcFinalIdx (q : JSValue) : Int :=
  let cai := getField q "correctAnswerIndex"
  let index : Option Int :=
    if cai = .vUndefined ∨ cai = .vNull then some (-1)
    else parseIntJS (jsToString cai)
  match index with
  | none => 0
  | some i => if i < 0 ∨ i ≥ ((kcOptions q).length : Int) then 0 else i

/-- Per-question sanitization for knowledge-check quizzes (the `.map` body in
`sanitizeQuizData`): string-coerce `questionText`, `options` and
`explanation` with defaults, and bound `correctAnswerIndex`. -/
def sanitizeKCQuestion (q : JSValue) : JSValue :=
  .vObj
    [ ("questionText", .vStr (jsToString (jsOr (getField q "questionText")
        (.vStr "Untitled Question")))),
      ("options", .vArr ((kcOptions q).map (fun o =>
        .vStr (if truthy o then jsToString o else "")))),
      ("correctAnswerIndex", .vNum (kcFinalIdx q)),
      ("explanation", .vStr (jsToString (jsOr (getField q "explanation")
        (.vStr "No explanation provided.")))) ]

/-- Result-tier filter: `r && typeof r.scoreThreshold === \x27number\x27 &&
r.title && r.feedback`. -/
def resultFilter (r : JSValue) : Bool :=
  truthy r &&
    (match getField r "scoreThreshold" with
      | .vNum _ => true
      | _ => false) &&
    truthy (getField r "title") && truthy (getField r "feedback")

/-- Outcome filter: `o && o.id && o.title && o.description`. -/
def outcomeFilter (o : JSValue) : Bool :=
  truthy o && truthy (getField o "id") && truthy (getField o "title") &&
    truthy (getField o "description")

/-- Questions surviving the filter (empty when `data.questions` is not an
array). -/
def filteredQuestions (data : JSValue) : List JSValue :=
  match getField data "questions" with
  | .vArr qs => qs.filter questionFilter
  | _ => []

/-- Sanitized question list before the fallback check. -/
def sanitizedQuestions (data : JSValue) : List JSValue :=
  (filteredQuestions data).map (fun q =>
    if quizTypeOf data = .knowledgeCheck then sanitizeKCQuestion q else q)

/-- Sanitized results before the zero-tier completion step. -/
def sanitizedResults (data : JSValue) : Option (List JSValue) :=
  if quizTypeOf data = .knowledgeCheck then
    match getField data "results" with
    | .vArr rs => some (rs.filter resultFilter)
    | _ => some []
  else none

/-- Sanitized outcomes. -/
def sanitizedOutcomes (data : JSValue) : Option (List JSValue) :=
  if quizTypeOf data = .personality then
    match getField data "outcomes" with
    | .vArr os => some (os.filter outcomeFilter)
    | _ => some []
  else none

/-- The hard-coded fallback question injected when every question was
filtered away. -/
def fallbackQuestion : JSValue :=
  .vObj
    [ ("questionText",
        .vStr "Our AI couldn\x27t create valid questions from this content."),
      ("options", .vArr
        [ .vStr "Try again with creative direction",
          .vStr "Select a different post" ]),
      ("correctAnswerIndex", .vNum 0),
      ("explanation",
        .vStr "This can happen with very short or abstract posts. Try giving the AI more specific instructions in the \x27Creative Direction\x27 box to guide the generation process.") ]

/-- The fallback result tier accompanying the fallback question. -/
def fallbackTier : JSValue :=
  .vObj
    [ ("scoreThreshold", .vNum 0),
      ("title", .vStr "Let\x27s Try Again"),
      ("feedback",
        .vStr "Use the controls on the left to regenerate the quiz. Providing a hint in the \x27Creative Direction\x27 box often helps the AI produce better results.") ]

/-- The zero-score tier prepended when a knowledge-check quiz has questions
but no tier with `scoreThreshold = 0`. -/
def zeroTier : JSValue :=
  .vObj
    [ ("scoreThreshold", .vNum 0),
      ("title", .vStr "Just Starting"),
      ("feedback",
        .vStr "Every expert starts somewhere! Review the material and try again to improve your score of \x7bscore\x7d out of \x7btotal\x7d.") ]

/-- Test `(sanitizedData.results || []).some(r => r.scoreThreshold === 0)`. -/
def hasZeroTier (rs : List JSValue) : Bool :=
  rs.any (fun r => getField r "scoreThreshold" = .vNum 0)

/-- Zero-tier completion step: when the quiz is a knowledge-check and no
tier has a zero threshold, prepend `zeroTier` (the `unshift` on
`sanitizedData.results || []` mutates a fresh array, hence is lost, when
`results` is `undefined`). -/
def completedResults (data : JSValue) : Option (List JSValue) :=
  if quizTypeOf data = .knowledgeCheck ∧
      hasZeroTier ((sanitizedResults data).getD []) = false then
    match sanitizedResults data with
    | some rs => some (zeroTier :: rs)
    | none => none
  else sanitizedResults data

/-- Embedding of `sanitizeQuizData` (src/unnamed/part_000): filter and map
questions, filter results and outcomes, inject the hard-coded fallback quiz
when no question survives, and otherwise prepend a zero-threshold tier to a
knowledge-check quiz that lacks one. -/
def sanitizeQuizData (data : JSValue) : QuizDataS :=
  if (sanitizedQuestions data).length = 0 then
    { quizTitle := jsOr (getField data "quizTitle")
        (.vStr "Quiz Generation Issue")
      quizType := .knowledgeCheck
      questions := [fallbackQuestion]
      results := some [fallbackTier]
      outcomes := none }
  else
    { quizTitle := jsOr (getField data "quizTitle") (.vStr "Interactive Quiz")
      quizType := quizTypeOf data
      questions := sanitizedQuestions data
      results := completedResults data
      outcomes := sanitizedOutcomes data }

/-- Encoding of a sanitized quiz back into a JavaScript value (the object the
rest of the program passes around); absent `results`/`outcomes` become
`undefined` fields. -/
def QuizDataS.toJS (s : QuizDataS) : JSValue :=
  .vObj
    [ ("quizTitle", s.quizTitle),
      ("quizType", .vStr (match s.quizType with
        | .knowledgeCheck => "knowledge-check"
        | .personality => "personality")),
      ("questions", .vArr s.questions),
      ("results", match s.results with
        | some rs => .vArr rs
        | none => .vUndefined),
      ("outcomes", match s.outcomes with
        | some os => .vArr os
        | none => .vUndefined) ]

/-- Result tier as rendered into the static quiz script. -/
structure ResultTier where
  scoreThreshold : Int
  title : String
  feedback : String
deriving DecidableEq, Repr

/-- Stable descending insertion by `scoreThreshold`: an element moves past an
earlier one only when the earlier threshold is strictly larger, so equal
thresholds keep their original order, as the stable JavaScript
`sort((a,b) => b.scoreThreshold - a.scoreThreshold)` does. -/
def insertTierDesc (t : ResultTier) : List ResultTier → List ResultTier
  | [] => [t]
  | u :: us =>
      if u.scoreThreshold > t.scoreThreshold then u :: insertTierDesc t us
      else t :: u :: us

/-- Stable sort of result tiers by descending threshold. -/
def sortTiersDesc : List ResultTier → List ResultTier
  | [] => []
  | t :: ts => insertTierDesc t (sortTiersDesc ts)

/-- Knowledge-check result lookup of `showResults` in
`renderQuizToStaticHtml` (src/services/aiService.ts): sort the tiers by
descending threshold and take the first whose threshold the score reaches. -/
def resolveTier (results : List ResultTier) (score : Int) : Option ResultTier :=
  (sortTiersDesc results).find? (fun t => score ≥ t.scoreThreshold)

/-- Title displayed for a knowledge-check result
(`finalTier?.title || \x27Quiz Complete!\x27`). -/
def knowledgeCheckTitle (results : List ResultTier) (score : Int) : String :=
  match resolveTier results score with
  | some t => if t.title = "" then "Quiz Complete!" else t.title
  | none => "Quiz Complete!"

/-- Personality outcome as rendered into the static quiz script. -/
structure Outcome where
  id : String
  title : String
  description : String
deriving DecidableEq, Repr

/-- Stable descending insertion of a tally entry by count, modelling the
stable JavaScript `sort((a, b) => b[1] - a[1])`. -/
def insertEntryDesc (e : String × Int) :
    List (String × Int) → List (String × Int)
  | [] => [e]
  | u :: us => if u.2 > e.2 then u :: insertEntryDesc e us else e :: u :: us

/-- Stable sort of tally entries by descending count. -/
def sortEntriesDesc : List (String × Int) → List (String × Int)
  | [] => []
  | e :: es => insertEntryDesc e (sortEntriesDesc es)

/-- Winner of a personality tally:
`Object.entries(personalityScores).sort((a, b) => b[1] - a[1])[0]?.[0]`,
where the entry list carries insertion order. -/
def winnerId (tally : List (String × Int)) : Option String :=
  (sortEntriesDesc tally).head?.map Prod.fst

/-- First entry of the tally attaining the maximum count (specification-side
description of the winner: maximum count, ties broken by first-encountered
insertion order). -/
def firstMaxEntry : List (String × Int) → Option (String × Int)
  | [] => none
  | e :: es =>
      match firstMaxEntry es with
      | none => some e
      | some m => if m.2 > e.2 then some m else some e

/-- Personality outcome lookup:
`quizData.outcomes.find(o => o.id === winnerId)`. -/
def findOutcome (outcomes : List Outcome) (tally : List (String × Int)) :
    Option Outcome :=
  outcomes.find? (fun o => (some o.id : Option String) = winnerId tally)

/-- Title displayed for a personality result
(`finalOutcome?.title || \x27Results Are In!\x27`). -/
def personalityTitle (outcomes : List Outcome)
    (tally : List (String × Int)) : String :=
  match findOutcome outcomes tally with
  | some o => if o.title = "" then "Results Are In!" else o.title
  | none => "Results Are In!"

/-- Description displayed for a personality result
(`finalOutcome?.description || \x27You have a unique personality
type.\x27`). -/
def personalityDesc (outcomes : List Outcome)
    (tally : List (String × Int)) : String :=
  match findOutcome outcomes tally with
  | some o => if o.description = "" then "You have a unique personality type."
      else o.description
  | none => "You have a unique personality type."

/-- Node of a parsed document body, flattened: `block` is an element matched
by the selector `p, h2, h3, h4, ul, ol, blockquote`; `other` is any other
child (text or unmatched element); `tool` is the inserted snippet or
shortcode wrapper; `marker` is a `CFORGE_MARKER_k` comment.  The model covers
documents whose body children are sibling nodes (no selector-matched element
nested inside another child). -/
inductive Node where
  | block : String → String → Node
  | other : String → Node
  | tool : String → Node
  | marker : Nat → Node
deriving DecidableEq, Repr

/-- Test for a selector-matched content block. -/
def isBlock : Node → Bool
  | .block _ _ => true
  | _ => false

/-- Test for an inserted tool node. -/
def isTool : Node → Bool
  | .tool _ => true
  | _ => false

/-- Test for a marker comment node. -/
def isMarker : Node → Bool
  | .marker _ => true
  | _ => false

/-- Outcome of the LLM placement call inside the `try` block: a response
text, or a thrown exception. -/
inductive AiResult where
  | ok : String → AiResult
  | threw : AiResult
deriving DecidableEq, Repr

/-- The `responseText.replace(/\D/g, \x27\x27)` step: keep only decimal
digits. -/
def stripNonDigits (s : String) : String := ⟨s.data.filter Char.isDigit⟩

/-- The `insertionIndex` computed by `insertSnippetIntoContent`
(src/services/aiService.ts) over `n` enumerated blocks: `n - 1` when `n < 2`;
otherwise the parsed response minus one when it is a number in `[1, n]`, and
`floor(n / 2)` on parse failure, out-of-range response, or a thrown call. -/
def insertionIndexOf (resp : AiResult) (n : Nat) : Int :=
  if n < 2 then (n : Int) - 1
  else
    let chosen : Int :=
      match resp with
      | .threw => -1
      | .ok t =>
          match parseIntJS (stripNonDigits t) with
          | none => -1
          | some c => if 0 < c ∧ c ≤ (n : Int) then c - 1 else -1
    if chosen = -1 then ((n / 2 : Nat) : Int) else chosen

/-- Insertion of node `t` immediately after the `i`-th (0-based)
selector-matched block, `contentBlocks[i].after(...)`.  The `[]` case is
unreachable under the guard `contentBlocks[insertionIndex]`. -/
def insertAfterNthBlock (body : List Node) (i : Nat) (t : Node) : List Node :=
  match body with
  | [] => [t]
  | n :: rest =>
      if isBlock n then
        if i = 0 then n :: t :: rest
        else n :: insertAfterNthBlock rest (i - 1) t
      else n :: insertAfterNthBlock rest i t

/-- Embedding of `insertSnippetIntoContent` (src/services/aiService.ts): pick
an insertion index, then either splice the wrapped snippet after that block
or append it to the body when no such block exists. -/
def insertSnippetIntoContent (body : List Node) (resp : AiResult)
    (snippet : String) : List Node :=
  let blocks := body.filter isBlock
  let idx := insertionIndexOf resp blocks.length
  if 0 ≤ idx ∧ idx < (blocks.length : Int) then
    insertAfterNthBlock body idx.toNat (.tool snippet)
  else body ++ [.tool snippet]

/-- Text content of a node (comments contribute nothing to
`textContent`). -/
def nodeText : Node → String
  | .block _ s => s
  | .other s => s
  | .tool s => s
  | .marker _ => ""

/-- JavaScript `String.prototype.trim`. -/
def jsTrim (s : String) : String :=
  ⟨(s.data.dropWhile wsChar).reverse.dropWhile wsChar |>.reverse⟩

/-- Marker interleaving step of `addInsertionMarkers`: a numbered marker
after each body child. -/
def interleaveMarkers : List Node → Nat → List Node
  | [], _ => []
  | n :: rest, k => n :: .marker k :: interleaveMarkers rest (k + 1)

/-- Embedding of `addInsertionMarkers` (src/unnamed/part_000): when the body
text is empty or whitespace, append a single marker; otherwise put marker 1
before the first child and one numbered marker after each child. -/
def addInsertionMarkers (body : List Node) : List Node :=
  if jsTrim (String.join (body.map nodeText)) = "" then body ++ [.marker 1]
  else .marker 1 :: interleaveMarkers body 2

/-- Serialized name of marker `k`. -/
def markerName (k : Nat) : String := "CFORGE_MARKER_" ++ toString k

/-- Test for the marker whose comment serializes to
`<!-- key -->`. -/
def isMarkerNamed (key : String) : Node → Bool
  | .marker k => markerName k = key
  | _ => false

/-- First-occurrence replacement, modelling
`String.prototype.replace(needle, ...)` at node level. -/
def replaceFirst (p : Node → Bool) (t : Node) : List Node → List Node
  | [] => []
  | n :: rest => if p n then t :: rest else n :: replaceFirst p t rest

/-- Final cleanup `replace(/<!--\s*CFORGE_MARKER_\d+\s*-->/g, \x27\x27)`:
drop every remaining marker. -/
def removeMarkers (body : List Node) : List Node :=
  body.filter (fun n => !isMarker n)

/-- Embedding of `insertShortcodeIntoContent` (src/unnamed/part_000).
`decision` is the validated `markerToReplace` produced from the LLM response
(`none` covers a thrown call, malformed JSON, or a non-string or
non-`CFORGE_MARKER_`-prefixed id).  When the named marker exists in the
marked-up document, the shortcode replaces it; otherwise the shortcode is
appended to the original content; finally every remaining marker is
removed. -/
def insertShortcodeIntoContent (body : List Node) (decision : Option String)
    (shortcode : String) : List Node :=
  let marked := addInsertionMarkers body
  match decision with
  | some m =>
      let key := jsTrim m
      if marked.any (isMarkerNamed key) then
        removeMarkers (replaceFirst (isMarkerNamed key) (.tool shortcode)
          marked)
      else removeMarkers (body ++ [.tool shortcode])
  | none => removeMarkers (body ++ [.tool shortcode])

/-- Case-insensitive literal match (the `/i` flag): consume `pat` from `s`,
comparing lower-cased characters; returns the remaining suffix. -/
def matchCI : List Char → List Char → Option (List Char)
  | [], s => some s
  | _ :: _, [] => none
  | p :: ps, c :: cs => if c.toLower = p.toLower then matchCI ps cs else none

/-- Lazy `.*?\]` step: scan for the first `]`, failing on a line terminator
(`.` does not match a newline; the regexes carry no `s` flag); returns the
suffix after the `]`. -/
def lazyDotToBracket : List Char → Option (List Char)
  | [] => none
  | c :: cs =>
      if c = ']' then some cs
      else if c = '\n' ∨ c = '\r' then none
      else lazyDotToBracket cs

/-- Backtracking `\s*.*?\]` step: try consuming `m` whitespace characters
first (the greedy maximum is tried first, then shorter prefixes). -/
def wsBacktrack (s : List Char) : Nat → Option (List Char)
  | 0 => lazyDotToBracket s
  | m + 1 =>
      match lazyDotToBracket (s.drop (m + 1)) with
      | some r => some r
      | none => wsBacktrack s m

/-- The trailing `\s*.*?\]` of the shortcode pattern. -/
def tailMatch (s : List Char) : Option (List Char) :=
  wsBacktrack s (s.takeWhile wsChar).length

/-- Optional quote `["\x27]?`: consume a quote character when present. -/
def optQuote (s : List Char) : List Char :=
  match s with
  | c :: rest => if c = '"' ∨ c = '\'' then rest else s
  | [] => s

/-- Matcher for the shortcode pattern
`\[\s*contentforge_tool\s+id\s*=\s*["\x27]?(\d+)["\x27]?\s*.*?\]` with the
`i` flag, anchored at the start of `s`; returns the captured digit run and
the suffix after the match.  `SHORTCODE_DETECTION_REGEX` and
`SHORTCODE_REMOVAL_REGEX` (src/constants.ts) share this pattern character
for character; they differ only in the capture group and the `g` flag.
Greedy sub-matches that cannot require backtracking (each is followed by a
literal its character class excludes) are consumed maximally; the one place
where backtracking is observable, `\s*` before the lazy `.*?`, is explored
longest-first as a backtracking engine does. -/
def shortcodeMatchAt (s : List Char) : Option (List Char × List Char) :=
  match s with
  | '[' :: s1 =>
      let s2 := s1.dropWhile wsChar
      match matchCI "contentforge_tool".data s2 with
      | none => none
      | some s3 =>
          let ws := s3.takeWhile wsChar
          if ws.isEmpty then none
          else
            match matchCI "id".data (s3.dropWhile wsChar) with
            | none => none
            | some s5 =>
                match s5.dropWhile wsChar with
                | '=' :: s7 =>
                    let s9 := optQuote (s7.dropWhile wsChar)
                    let ds := s9.takeWhile Char.isDigit
                    if ds.isEmpty then none
                    else
                      match tailMatch (optQuote (s9.drop ds.length)) with
                      | none => none
                      | some s12 => some (ds, s12)
                | _ => none
  | _ => none

/-- Leftmost match of the shortcode pattern: the unmatched prefix, the
captured digits, and the suffix after the match. -/
def shortcodeSearch : List Char → Option (List Char × List Char × List Char)
  | [] => none
  | c :: cs =>
      match shortcodeMatchAt (c :: cs) with
      | some (cap, rest) => some ([], cap, rest)
      | none =>
          (shortcodeSearch cs).map (fun pr => (c :: pr.1, pr.2.1, pr.2.2))

/-- The `toolId` extracted in `fetchPosts`
(src/services/wordpressService.ts):
`parseInt(match[1], 10)` on the first capture group of
`content.match(SHORTCODE_DETECTION_REGEX)`, `undefined` (here `none`) when
the regex does not match. -/
def detectToolId (content : List Char) : Option Int :=
  (shortcodeSearch content).bind (fun pr => parseIntJS ⟨pr.2.1⟩)

/-- `SHORTCODE_DETECTION_REGEX` (src/constants.ts) anchored at a position:
the shared pattern with its capture group. -/
def SHORTCODE_DETECTION_REGEX (s : List Char) :
    Option (List Char × List Char) :=
  shortcodeMatchAt s

/-- `SHORTCODE_REMOVAL_REGEX` (src/constants.ts) anchored at a position: the
same pattern character for character, without the capture group (its
source differs from the detection regex only in `(\d+)` versus `\d+` and
the `g` flag). -/
def SHORTCODE_REMOVAL_REGEX (s : List Char) : Option (List Char) :=
  (shortcodeMatchAt s).map Prod.snd

theorem matchCI_length_le :
    ∀ pat s r, matchCI pat s = some r → r.length ≤ s.length
  | [], s, r => by simp [matchCI]; rintro rfl; exact le_refl _
  | p :: ps, [], r => by simp [matchCI]
  | p :: ps, c :: cs, r => by
      simp only [matchCI]
      split
      · intro h
        exact le_trans (matchCI_length_le ps cs r h) (Nat.le_succ _)
      · intro h
        exact absurd h (by simp)

theorem lazyDotToBracket_length_lt :
    ∀ s r, lazyDotToBracket s = some r → r.length < s.length
  | [], r => by simp [lazyDotToBracket]
  | c :: cs, r => by
      simp only [lazyDotToBracket]
      split
      · rintro ⟨rfl⟩
        simp
      · split
        · intro h
          exact absurd h (by simp)
        · intro h
          exact lt_trans (lazyDotToBracket_length_lt cs r h) (by simp)

theorem wsBacktrack_length_lt :
    ∀ m s r, wsBacktrack s m = some r → r.length < s.length
  | 0, s, r => fun h => lazyDotToBracket_length_lt s r h
  | m + 1, s, r => by
      simp only [wsBacktrack]
      cases hd : lazyDotToBracket (s.drop (m + 1)) with
      | some r2 =>
          rintro ⟨rfl⟩
          calc r.length < (s.drop (m + 1)).length :=
                lazyDotToBracket_length_lt _ _ hd
            _ ≤ s.length := by simp
      | none => exact fun h => wsBacktrack_length_lt m s r h

theorem tailMatch_length_lt (s r : List Char) (h : tailMatch s = some r) :
    r.length < s.length :=
  wsBacktrack_length_lt _ s r h

theorem dropWhile_length_le (p : Char → Bool) (s : List Char) :
    (s.dropWhile p).length ≤ s.length := by
  induction s with
  | nil => simp
  | cons c cs ih =>
      by_cases h : p c
      · simpa [List.dropWhile, h] using le_trans ih (Nat.le_succ _)
      · simp [List.dropWhile, h]

theorem optQuote_length_le (s : List Char) :
    (optQuote s).length ≤ s.length := by
  cases s with
  | nil => simp [optQuote]
  | cons c cs =>
      simp only [optQuote]
      split <;> simp

theorem shortcodeMatchAt_length_lt (s cap r : List Char)
    (h : shortcodeMatchAt s = some (cap, r)) : r.length < s.length := by
  unfold shortcodeMatchAt at h
  split at h
  case h_2 => exact absurd h (by simp)
  case h_1 s1 =>
    dsimp only at h
    split at h
    case h_1 => exact absurd h (by simp)
    case h_2 s3 h1 =>
      split at h
      case isTrue => exact absurd h (by simp)
      case isFalse hws =>
        split at h
        case h_1 => exact absurd h (by simp)
        case h_2 s5 h2 =>
          split at h
          case h_2 => exact absurd h (by simp)
          case h_1 s7 h5 =>
            split at h
            case isTrue => exact absurd h (by simp)
            case isFalse hds =>
              split at h
              case h_1 => exact absurd h (by simp)
              case h_2 s12 h3 =>
                have hr : r = s12 := by
                  injection h with h
                  injection h with hcap hr
                  exact hr.symm
                subst hr
                have l1 := tailMatch_length_lt _ _ h3
                have l2 := optQuote_length_le
                  ((optQuote (s7.dropWhile wsChar)).drop
                    ((optQuote (s7.dropWhile wsChar)).takeWhile
                      Char.isDigit).length)
                have l3 :
                    ((optQuote (s7.dropWhile wsChar)).drop
                      ((optQuote (s7.dropWhile wsChar)).takeWhile
                        Char.isDigit).length).length ≤
                      (optQuote (s7.dropWhile wsChar)).length := by
                  simp
                have l4 := optQuote_length_le (s7.dropWhile wsChar)
                have l5 := dropWhile_length_le wsChar s7
                have l6 : s7.length < s5.length := by
                  have := dropWhile_length_le wsChar s5
                  rw [h5] at this
                  simp only [List.length_cons] at this
                  omega
                have l7 := matchCI_length_le _ _ _ h2
                have l8 := dropWhile_length_le wsChar s3
                have l9 := matchCI_length_le _ _ _ h1
                have l10 := dropWhile_length_le wsChar s1
                simp only [List.length_cons]
                omega

/-- Global removal
`content.replace(SHORTCODE_REMOVAL_REGEX, \x27\x27)`: scan left to right,
delete each leftmost match, and continue after it. -/
def removeAll (s : List Char) : List Char :=
  match s with
  | [] => []
  | c :: cs =>
      match h : shortcodeMatchAt (c :: cs) with
      | some (_, rest) => removeAll rest
      | none => c :: removeAll cs
termination_by s.length
decreasing_by
  · exact shortcodeMatchAt_length_lt _ _ _ h
  · simp

theorem takeWhile_eq_self_of_all {p : Char → Bool} :
    ∀ l : List Char, (∀ c ∈ l, p c = true) → l.takeWhile p = l
  | [], _ => rfl
  | c :: cs, h => by
      have hc : p c = true := h c (List.mem_cons_self c cs)
      simp only [List.takeWhile_cons, hc, if_true]
      rw [takeWhile_eq_self_of_all cs (fun d hd => h d (List.mem_cons_of_mem c hd))]

theorem dropWhile_eq_self_of_head {p : Char → Bool} (c : Char) (cs : List Char)
    (h : p c = false) : (c :: cs).dropWhile p = c :: cs := by
  simp [List.dropWhile_cons, h]

theorem digitsVal_append_singleton (ds : List Char) (c : Char) :
    digitsVal (ds ++ [c]) = digitsVal ds * 10 + (c.toNat - 48) := by
  simp [digitsVal, List.foldl_append]

theorem natDecimal_spec (n : Nat) :
    (∀ c ∈ natDecimal n, c.isDigit = true) ∧ digitsVal (natDecimal n) = n := by
  induction n using Nat.strong_induction_on with
  | _ n ih =>
    rw [natDecimal]
    by_cases h : n < 10
    · rw [dif_pos h]
      constructor
      · intro c hc
        simp only [List.mem_singleton] at hc
        subst hc
        interval_cases n <;> decide
      · interval_cases n <;> decide
    · rw [dif_neg h]
      obtain ⟨ihd, ihv⟩ := ih (n / 10) (Nat.div_lt_self (by omega) (by omega))
      have h10 : n % 10 < 10 := Nat.mod_lt _ (by omega)
      constructor
      · intro c hc
        rcases List.mem_append.mp hc with h1 | h1
        · exact ihd c h1
        · simp only [List.mem_singleton] at h1
          subst h1
          set m := n % 10 with hm
          interval_cases m <;> decide
      · rw [digitsVal_append_singleton, ihv]
        have hv : (Char.ofNat (48 + n % 10)).toNat = 48 + n % 10 := by
          set m := n % 10 with hm
          interval_cases m <;> decide
        rw [hv]
        omega

theorem natDecimal_ne_nil (n : Nat) : natDecimal n ≠ [] := by
  rw [natDecimal]
  split <;> simp

theorem not_wsChar_of_isDigit (c : Char) (h : c.isDigit = true) :
    wsChar c = false := by
  by_contra hh
  have hw : wsChar c = true := by
    cases hx : wsChar c
    · exact absurd hx hh
    · rfl
  unfold wsChar at hw
  simp only [Bool.or_eq_true, decide_eq_true_eq] at hw
  rcases hw with ((((rfl | rfl) | rfl) | rfl) | rfl) | rfl <;>
    simp [Char.isDigit] at h

theorem ne_sign_of_isDigit (c : Char) (h : c.isDigit = true) :
    c ≠ '-' ∧ c ≠ '+' := by
  constructor <;> rintro rfl <;> simp [Char.isDigit] at h

theorem parseIntJS_natDecimal (n : Nat) :
    parseIntJS ⟨natDecimal n⟩ = some (n : Int) := by
  obtain ⟨hd, hv⟩ := natDecimal_spec n
  unfold parseIntJS
  cases hns : natDecimal n with
  | nil => exact absurd hns (natDecimal_ne_nil n)
  | cons c cs =>
      have hc : c.isDigit = true := by
        rw [hns] at hd
        exact hd c (List.mem_cons_self c cs)
      have hall : ∀ d ∈ c :: cs, d.isDigit = true := by
        rw [hns] at hd
        exact hd
      have hwc : wsChar c = false := not_wsChar_of_isDigit c hc
      dsimp only
      rw [dropWhile_eq_self_of_head c cs hwc]
      obtain ⟨hminus, hplus⟩ := ne_sign_of_isDigit c hc
      have htake : (c :: cs).takeWhile Char.isDigit = c :: cs :=
        takeWhile_eq_self_of_all _ hall
      split
      · rename_i rest heq
        rw [List.cons.injEq] at heq
        exact absurd heq.1 hminus
      · rename_i rest heq
        rw [List.cons.injEq] at heq
        exact absurd heq.1 hplus
      · rw [htake]
        rw [if_neg (by simp)]
        rw [hns] at hv
        rw [hv]

theorem parseIntJS_intDecimal (i : Int) : parseIntJS (intDecimal i) = some i := by
  unfold intDecimal
  by_cases h : i < 0
  · rw [if_pos h]
    obtain ⟨hd, hv⟩ := natDecimal_spec (-i).toNat
    unfold parseIntJS
    dsimp only
    rw [dropWhile_eq_self_of_head _ _ (by decide)]
    have htake : (natDecimal (-i).toNat).takeWhile Char.isDigit =
        natDecimal (-i).toNat := takeWhile_eq_self_of_all _ hd
    split
    · rename_i rest heq
      rw [List.cons.injEq] at heq
      obtain ⟨-, hrest⟩ := heq
      subst hrest
      rw [htake, if_neg (by simpa using natDecimal_ne_nil (-i).toNat), hv]
      congr 1
      omega
    · rename_i rest heq
      rw [List.cons.injEq] at heq
      exact absurd heq.1 (by decide)
    · rename_i hne1 hne2
      exact absurd rfl (hne1 (natDecimal (-i).toNat))
  · rw [if_neg h]
    rw [parseIntJS_natDecimal]
    congr 1
    omega

theorem truthy_jsOr (a b : JSValue) (hb : truthy b = true) :
    truthy (jsOr a b) = true := by
  unfold jsOr
  split
  · assumption
  · exact hb

theorem sanitizedResults_eq_some (data : JSValue)
    (h : quizTypeOf data = .knowledgeCheck) :
    ∃ rs, sanitizedResults data = some rs ∧ ∀ r ∈ rs, resultFilter r = true := by
  unfold sanitizedResults
  rw [if_pos h]
  split
  · exact ⟨_, rfl, fun r hr => List.of_mem_filter hr⟩
  · exact ⟨[], rfl, by simp⟩

theorem completedResults_kc (data : JSValue)
    (h : quizTypeOf data = .knowledgeCheck) :
    ∃ rs, completedResults data = some rs ∧
      (∀ r ∈ rs, resultFilter r = true) ∧
      ∃ r ∈ rs, getField r "scoreThreshold" = .vNum 0 := by
  obtain ⟨rs0, hrs0, hall⟩ := sanitizedResults_eq_some data h
  unfold completedResults
  rw [hrs0]
  by_cases hz : hasZeroTier ((some rs0).getD []) = true
  · have hz2 : hasZeroTier rs0 = true := by simpa using hz
    rw [if_neg (by simp [hz2])]
    refine ⟨rs0, rfl, hall, ?_⟩
    simpa [hasZeroTier, List.any_eq_true] using hz2
  · rw [if_pos ⟨h, by simpa using hz⟩]
    refine ⟨zeroTier :: rs0, rfl, ?_, zeroTier, List.mem_cons_self _ _, by decide⟩
    intro r hr
    rcases List.mem_cons.mp hr with rfl | hr2
    · decide
    · exact hall r hr2

theorem sanitize_questions_ne_nil (data : JSValue) :
    (sanitizeQuizData data).questions ≠ [] := by
  unfold sanitizeQuizData
  split
  · simp
  · rename_i hlen
    simpa using fun hh => hlen (by rw [hh]; rfl)

theorem sanitize_kc_results (data : JSValue)
    (h : (sanitizeQuizData data).quizType = .knowledgeCheck) :
    ∃ rs, (sanitizeQuizData data).results = some rs ∧
      (∀ r ∈ rs, resultFilter r = true) ∧
      ∃ r ∈ rs, getField r "scoreThreshold" = .vNum 0 := by
  unfold sanitizeQuizData at h ⊢
  split at h
  · rename_i hlen
    rw [if_pos hlen]
    exact ⟨[fallbackTier], rfl, by decide, fallbackTier, List.mem_singleton.mpr rfl,
      by decide⟩
  · rename_i hlen
    rw [if_neg hlen]
    exact completedResults_kc data h

theorem sanitize_outcomes_none (data : JSValue)
    (h : (sanitizeQuizData data).quizType = .knowledgeCheck) :
    (sanitizeQuizData data).outcomes = none := by
  unfold sanitizeQuizData at h ⊢
  split at h
  · rename_i hlen
    rw [if_pos hlen]
  · rename_i hlen
    rw [if_neg hlen]
    have h2 : quizTypeOf data = QuizType.knowledgeCheck := h
    show sanitizedOutcomes data = none
    unfold sanitizedOutcomes
    rw [if_neg (by rw [h2]; simp)]

theorem sanitize_title_truthy (data : JSValue) :
    truthy (sanitizeQuizData data).quizTitle = true := by
  unfold sanitizeQuizData
  split
  · exact truthy_jsOr _ _ (by decide)
  · exact truthy_jsOr _ _ (by decide)

/-- C1: for every input object — including the empty object, null-ish,
wrong-typed fields, and negative or huge `correctAnswerIndex` values —
`sanitizeQuizData` returns a quiz whose question list has length at least
one, and, when the resulting quiz type is knowledge-check, whose results
list is present and contains a tier with `scoreThreshold = 0`.  The
embedding is total, which reflects that the function never throws on object
inputs. -/
theorem sanitizer_totality (data : JSValue) (hobj : isObj data = true) :
    1 ≤ (sanitizeQuizData data).questions.length ∧
      ((sanitizeQuizData data).quizType = QuizType.knowledgeCheck →
        ∃ rs, (sanitizeQuizData data).results = some rs ∧
          ∃ r ∈ rs, getField r "scoreThreshold" = .vNum 0) := by
  refine ⟨?_, fun h => ?_⟩
  · exact List.length_pos.mpr (sanitize_questions_ne_nil data)
  · obtain ⟨rs, h1, _, h3⟩ := sanitize_kc_results data h
    exact ⟨rs, h1, h3⟩

theorem sanitizer_totality_witness :
    isObj (JSValue.vObj [("correctAnswerIndex", .vNum (-999))]) = true ∧
      (1 ≤ (sanitizeQuizData (JSValue.vObj [("correctAnswerIndex",
          .vNum (-999))])).questions.length ∧
        ((sanitizeQuizData (JSValue.vObj [("correctAnswerIndex",
            .vNum (-999))])).quizType = QuizType.knowledgeCheck →
          ∃ rs, (sanitizeQuizData (JSValue.vObj [("correctAnswerIndex",
              .vNum (-999))])).results = some rs ∧
            ∃ r ∈ rs, getField r "scoreThreshold" = .vNum 0)) :=
  ⟨by decide, sanitizer_totality (JSValue.vObj [("correctAnswerIndex",
    .vNum (-999))]) (by decide)⟩

/-- C2: whenever no input question survives the filter — the `questions`
field is absent, not an array, empty, or every entry is dropped (an entry is
dropped when it is not object-typed, has a falsy `questionText`, or has
fewer than 2 options) — the sanitizer returns the hard-coded fallback quiz:
knowledge-check type, exactly the one "generation failed" question with 2
options and `correctAnswerIndex = 0`, exactly one result tier with
`scoreThreshold = 0`, and no `outcomes`. -/
theorem sanitizer_fallback (data : JSValue) (h : filteredQuestions data = []) :
    (sanitizeQuizData data).quizType = QuizType.knowledgeCheck ∧
    (sanitizeQuizData data).questions = [fallbackQuestion] ∧
    getField fallbackQuestion "questionText" =
      .vStr "Our AI couldn\x27t create valid questions from this content." ∧
    getField fallbackQuestion "options" =
      .vArr [.vStr "Try again with creative direction",
        .vStr "Select a different post"] ∧
    getField fallbackQuestion "correctAnswerIndex" = .vNum 0 ∧
    (sanitizeQuizData data).results = some [fallbackTier] ∧
    getField fallbackTier "scoreThreshold" = .vNum 0 ∧
    (sanitizeQuizData data).outcomes = none := by
  have hq : sanitizedQuestions data = [] := by
    unfold sanitizedQuestions
    rw [h]
    rfl
  unfold sanitizeQuizData
  rw [if_pos (by rw [hq]; rfl)]
  exact ⟨rfl, rfl, by decide, by decide, by decide, rfl, by decide, rfl⟩

theorem sanitizer_fallback_witness :
    filteredQuestions (JSValue.vObj [("questions",
        .vArr [.vObj [("questionText", .vStr "q")]])]) = [] ∧
      ((sanitizeQuizData (JSValue.vObj [("questions",
          .vArr [.vObj [("questionText", .vStr "q")]])])).quizType =
        QuizType.knowledgeCheck ∧
      (sanitizeQuizData (JSValue.vObj [("questions",
          .vArr [.vObj [("questionText", .vStr "q")]])])).questions =
        [fallbackQuestion] ∧
      getField fallbackQuestion "questionText" =
        .vStr "Our AI couldn\x27t create valid questions from this content." ∧
      getField fallbackQuestion "options" =
        .vArr [.vStr "Try again with creative direction",
          .vStr "Select a different post"] ∧
      getField fallbackQuestion "correctAnswerIndex" = .vNum 0 ∧
      (sanitizeQuizData (JSValue.vObj [("questions",
          .vArr [.vObj [("questionText", .vStr "q")]])])).results =
        some [fallbackTier] ∧
      getField fallbackTier "scoreThreshold" = .vNum 0 ∧
      (sanitizeQuizData (JSValue.vObj [("questions",
          .vArr [.vObj [("questionText", .vStr "q")]])])).outcomes = none) :=
  ⟨by decide, sanitizer_fallback _ (by decide)⟩

/-- C10: when the input declares `quizType = "personality"` and at least one
question survives the filter, the sanitizer returns the surviving question
entries exactly as given — the per-question knowledge-check coercions
(string coercion of option texts, defaulting of `explanation`, index
bounding) are not applied, and no check relates an option `pointsFor` to
the `outcomes` ids. -/
theorem personality_passthrough (data : JSValue)
    (h1 : quizTypeOf data = QuizType.personality)
    (h2 : filteredQuestions data ≠ []) :
    (sanitizeQuizData data).questions = filteredQuestions data := by
  have hq : sanitizedQuestions data = filteredQuestions data := by
    unfold sanitizedQuestions
    rw [h1]
    simp
  unfold sanitizeQuizData
  rw [if_neg (by rw [hq]; simpa using h2)]
  exact hq

theorem personality_passthrough_witness :
    quizTypeOf (JSValue.vObj [("quizType", .vStr "personality"),
        ("questions", .vArr [.vObj [("questionText", .vStr "t"),
          ("options", .vArr [.vNull, .vNum 7])]])]) =
      QuizType.personality ∧
    filteredQuestions (JSValue.vObj [("quizType", .vStr "personality"),
        ("questions", .vArr [.vObj [("questionText", .vStr "t"),
          ("options", .vArr [.vNull, .vNum 7])]])]) ≠ [] ∧
    (sanitizeQuizData (JSValue.vObj [("quizType", .vStr "personality"),
        ("questions", .vArr [.vObj [("questionText", .vStr "t"),
          ("options", .vArr [.vNull, .vNum 7])]])])).questions =
      filteredQuestions (JSValue.vObj [("quizType", .vStr "personality"),
        ("questions", .vArr [.vObj [("questionText", .vStr "t"),
          ("options", .vArr [.vNull, .vNum 7])]])]) :=
  ⟨by decide, by decide, personality_passthrough _ (by decide) (by decide)⟩

/-- Mirror of the claim wording for the index coercion: the integer coercion
`parseInt(String(value), 10)` of the `correctAnswerIndex` field when that
coercion lies in `[0, N)`, and `0` when the field is absent (`undefined` or
`null`), non-numeric, or out of range. -/
def claimedCoercion (q : JSValue) (n : Nat) : Int :=
  let cai := getField q "correctAnswerIndex"
  if cai = .vUndefined ∨ cai = .vNull then 0
  else
    match parseIntJS (jsToString cai) with
    | none => 0
    | some k => if 0 ≤ k ∧ k < (n : Int) then k else 0

/-- C4: for every question surviving the filter in a knowledge-check quiz
with `N = options.length` (necessarily `N ≥ 2`), the sanitized question is
part of the output, and its `correctAnswerIndex` equals the integer
coercion `parseInt(String(value), 10)` of the input field when that value
is present and the coercion lies in `[0, N)`, and `0` otherwise (absent,
non-numeric, or out-of-range field). -/
theorem correctAnswerIndex_coercion (data q : JSValue) (os : List JSValue)
    (h1 : quizTypeOf data = QuizType.knowledgeCheck)
    (h2 : q ∈ filteredQuestions data)
    (h3 : getField q "options" = .vArr os) :
    sanitizeKCQuestion q ∈ (sanitizeQuizData data).questions ∧
    2 ≤ os.length ∧
    getField (sanitizeKCQuestion q) "correctAnswerIndex" =
      .vNum (claimedCoercion q os.length) := by
  have hlen : 2 ≤ os.length := by
    have hf : questionFilter q = true := by
      have h4 := h2
      unfold filteredQuestions at h4
      split at h4
      · exact List.of_mem_filter h4
      · exact absurd h4 (List.not_mem_nil q)
    unfold questionFilter at hf
    rw [h3] at hf
    simp only [Bool.and_eq_true, decide_eq_true_eq] at hf
    omega
  refine ⟨?_, hlen, ?_⟩
  · have hne : filteredQuestions data ≠ [] := fun hh => by
      rw [hh] at h2
      exact absurd h2 (List.not_mem_nil q)
    unfold sanitizeQuizData
    rw [if_neg (by
      unfold sanitizedQuestions
      simpa using fun hh => hne (List.length_eq_zero.mp (by simpa using hh)))]
    show sanitizeKCQuestion q ∈ sanitizedQuestions data
    unfold sanitizedQuestions
    rw [h1]
    simpa using List.mem_map_of_mem _ h2
  · have hgf : getField (sanitizeKCQuestion q) "correctAnswerIndex" =
        .vNum (kcFinalIdx q) := by
      simp [sanitizeKCQuestion, getField, lookupLast]
    rw [hgf]
    congr 1
    unfold kcFinalIdx claimedCoercion
    have hopts : kcOptions q = os := by
      unfold kcOptions
      rw [h3]
    rw [hopts]
    dsimp only
    by_cases hc : getField q "correctAnswerIndex" = .vUndefined ∨
        getField q "correctAnswerIndex" = .vNull
    · rw [if_pos hc, if_pos hc]
      simp only []
      rw [if_pos (by omega)]
    · rw [if_neg hc, if_neg hc]
      cases hp : parseIntJS (jsToString (getField q "correctAnswerIndex")) with
      | none => rfl
      | some k =>
          dsimp only
          split_ifs <;> omega

def c4q : JSValue :=
  .vObj [("questionText", .vStr "t"),
    ("options", .vArr [.vStr "a", .vStr "b", .vStr "c"]),
    ("correctAnswerIndex", .vStr "2")]

def c4data : JSValue := .vObj [("questions", .vArr [c4q])]

theorem correctAnswerIndex_coercion_witness :
    quizTypeOf c4data = QuizType.knowledgeCheck ∧
    c4q ∈ filteredQuestions c4data ∧
    getField c4q "options" = .vArr [.vStr "a", .vStr "b", .vStr "c"] ∧
    (sanitizeKCQuestion c4q ∈ (sanitizeQuizData c4data).questions ∧
      2 ≤ ([JSValue.vStr "a", .vStr "b", .vStr "c"] : List JSValue).length ∧
      getField (sanitizeKCQuestion c4q) "correctAnswerIndex" =
        .vNum (claimedCoercion c4q
          ([JSValue.vStr "a", .vStr "b", .vStr "c"] : List JSValue).length)) :=
  ⟨by decide, by decide, by decide,
    correctAnswerIndex_coercion c4data c4q _ (by decide) (by decide) (by decide)⟩

theorem mem_insertTierDesc (t u : ResultTier) :
    ∀ l, u ∈ insertTierDesc t l ↔ u ∈ t :: l := by
  intro l
  induction l with
  | nil => simp [insertTierDesc]
  | cons v vs ih =>
      unfold insertTierDesc
      split
      · simp only [List.mem_cons] at ih ⊢
        rw [ih]
        tauto
      · simp only [List.mem_cons]

theorem mem_sortTiersDesc (u : ResultTier) :
    ∀ l, u ∈ sortTiersDesc l ↔ u ∈ l := by
  intro l
  induction l with
  | nil => simp [sortTiersDesc]
  | cons v vs ih =>
      unfold sortTiersDesc
      rw [mem_insertTierDesc]
      simp only [List.mem_cons]
      rw [ih]

/-- C7: for a knowledge-check quiz whose result tiers include one with
`scoreThreshold = 0`, every score between `0` and the question count
resolves to a tier: the descending-threshold lookup of `showResults` always
finds one, so its `Quiz Complete!` default branch is unreachable under this
precondition (the proof needs only `0 ≤ score`). -/
theorem resolveTier_total (results : List ResultTier) (score : Int)
    (numQuestions : Int)
    (hzero : ∃ t ∈ results, t.scoreThreshold = 0)
    (hlo : 0 ≤ score) (hhi : score ≤ numQuestions) :
    ∃ t, resolveTier results score = some t := by
  obtain ⟨t, ht, hts⟩ := hzero
  rw [← Option.isSome_iff_exists]
  unfold resolveTier
  rw [List.find?_isSome]
  refine ⟨t, (mem_sortTiersDesc t results).mpr ht, ?_⟩
  simp only [hts, ge_iff_le, decide_eq_true_eq]
  exact hlo

theorem resolveTier_total_witness :
    (∃ t ∈ [ResultTier.mk 3 "great" "g", ResultTier.mk 0 "start" "s"],
      t.scoreThreshold = 0) ∧ (0 : Int) ≤ 0 ∧ (0 : Int) ≤ 3 ∧
    ∃ t, resolveTier [ResultTier.mk 3 "great" "g",
      ResultTier.mk 0 "start" "s"] 0 = some t :=
  ⟨by decide, by decide, by decide,
    resolveTier_total _ 0 3 (by decide) (by decide) (by decide)⟩

theorem head?_insertEntryDesc (e : String × Int) (l : List (String × Int)) :
    (insertEntryDesc e l).head? =
      match l.head? with
      | none => some e
      | some u => if u.2 > e.2 then some u else some e := by
  cases l with
  | nil => rfl
  | cons u us =>
      unfold insertEntryDesc
      split
      · rename_i hgt
        simp [List.head?, hgt]
      · rename_i hle
        simp [List.head?, hle]

theorem head?_sortEntriesDesc (l : List (String × Int)) :
    (sortEntriesDesc l).head? = firstMaxEntry l := by
  induction l with
  | nil => rfl
  | cons e es ih =>
      unfold sortEntriesDesc firstMaxEntry
      rw [head?_insertEntryDesc, ih]

theorem firstMaxEntry_eq_none (l : List (String × Int)) :
    firstMaxEntry l = none ↔ l = [] := by
  cases l with
  | nil => simp [firstMaxEntry]
  | cons v vs =>
      unfold firstMaxEntry
      cases firstMaxEntry vs
      · simp
      · dsimp only
        split <;> simp

theorem firstMaxEntry_spec (l : List (String × Int)) (e : String × Int)
    (h : firstMaxEntry l = some e) :
    e ∈ l ∧ (∀ x ∈ l, x.2 ≤ e.2) ∧
      ∃ l1 l2, l = l1 ++ e :: l2 ∧ ∀ x ∈ l1, x.2 < e.2 := by
  induction l generalizing e with
  | nil => exact absurd h (by simp [firstMaxEntry])
  | cons u us ih =>
      unfold firstMaxEntry at h
      cases hm : firstMaxEntry us with
      | none =>
          rw [hm] at h
          dsimp only at h
          injection h with h
          subst h
          have hus : us = [] := (firstMaxEntry_eq_none us).mp hm
          subst hus
          exact ⟨List.mem_singleton.mpr rfl, by simp, [], [], rfl, by simp⟩
      | some m =>
          rw [hm] at h
          dsimp only at h
          obtain ⟨hmem, hmax, l1, l2, hsplit, hpre⟩ := ih m hm
          by_cases hgt : m.2 > u.2
          · rw [if_pos hgt] at h
            injection h with h
            subst h
            refine ⟨List.mem_cons_of_mem u hmem, ?_, u :: l1, l2,
              by rw [hsplit]; rfl, ?_⟩
            · intro x hx
              rcases List.mem_cons.mp hx with rfl | hx2
              · omega
              · exact hmax x hx2
            · intro x hx
              rcases List.mem_cons.mp hx with rfl | hx2
              · omega
              · exact hpre x hx2
          · rw [if_neg hgt] at h
            injection h with h
            subst h
            refine ⟨List.mem_cons_self _ _, ?_, [], us, rfl, by simp⟩
            intro x hx
            rcases List.mem_cons.mp hx with rfl | hx2
            · omega
            · have := hmax x hx2
              omega

/-- C9: the winner of a personality tally is the first entry (in insertion
order) attaining the maximum count — the stable descending sort places it at
the head — and whenever no outcome id equals the winner, the rendered title
and description fall back to the generic strings instead of erroring. -/
theorem personality_resolution (tally : List (String × Int))
    (outcomes : List Outcome)
    (h : ∀ o ∈ outcomes, (some o.id : Option String) ≠ winnerId tally) :
    winnerId tally = (firstMaxEntry tally).map Prod.fst ∧
    (∀ e, firstMaxEntry tally = some e →
      e ∈ tally ∧ (∀ x ∈ tally, x.2 ≤ e.2) ∧
        ∃ l1 l2, tally = l1 ++ e :: l2 ∧ ∀ x ∈ l1, x.2 < e.2) ∧
    personalityTitle outcomes tally = "Results Are In!" ∧
    personalityDesc outcomes tally = "You have a unique personality type." := by
  have hfind : findOutcome outcomes tally = none := by
    unfold findOutcome
    rw [List.find?_eq_none]
    intro o ho
    simpa using h o ho
  refine ⟨?_, fun e he => firstMaxEntry_spec tally e he, ?_, ?_⟩
  · unfold winnerId
    rw [head?_sortEntriesDesc]
  · unfold personalityTitle
    rw [hfind]
  · unfold personalityDesc
    rw [hfind]

theorem personality_resolution_witness :
    (∀ o ∈ [Outcome.mk "C" "tc" "dc"],
      (some o.id : Option String) ≠ winnerId [("A", 2), ("B", 1)]) ∧
    (winnerId [("A", 2), ("B", 1)] =
      (firstMaxEntry [("A", 2), ("B", 1)]).map Prod.fst ∧
    (∀ e, firstMaxEntry [(("A" : String), (2 : Int)), ("B", 1)] = some e →
      e ∈ [(("A" : String), (2 : Int)), ("B", 1)] ∧
        (∀ x ∈ [(("A" : String), (2 : Int)), ("B", 1)], x.2 ≤ e.2) ∧
        ∃ l1 l2, [(("A" : String), (2 : Int)), ("B", 1)] = l1 ++ e :: l2 ∧
          ∀ x ∈ l1, x.2 < e.2) ∧
    personalityTitle [Outcome.mk "C" "tc" "dc"] [("A", 2), ("B", 1)] =
      "Results Are In!" ∧
    personalityDesc [Outcome.mk "C" "tc" "dc"] [("A", 2), ("B", 1)] =
      "You have a unique personality type.") :=
  ⟨by decide, personality_resolution [("A", 2), ("B", 1)]
    [Outcome.mk "C" "tc" "dc"] (by decide)⟩

theorem insertAfterNthBlock_split (t : Node) :
    ∀ (body : List Node) (i : Nat), ∃ pre post, body = pre ++ post ∧
      insertAfterNthBlock body i t = pre ++ t :: post
  | [], _ => ⟨[], [], rfl, rfl⟩
  | n :: rest, i => by
      unfold insertAfterNthBlock
      by_cases hb : isBlock n = true
      · rw [if_pos hb]
        by_cases hi : i = 0
        · rw [if_pos hi]
          exact ⟨[n], rest, rfl, rfl⟩
        · rw [if_neg hi]
          obtain ⟨pre, post, h1, h2⟩ := insertAfterNthBlock_split t rest (i - 1)
          exact ⟨n :: pre, post, by rw [h1]; rfl, by rw [h2]; rfl⟩
      · rw [if_neg hb]
        obtain ⟨pre, post, h1, h2⟩ := insertAfterNthBlock_split t rest i
        exact ⟨n :: pre, post, by rw [h1]; rfl, by rw [h2]; rfl⟩

theorem insertAfterNthBlock_spec (t : Node) :
    ∀ (body : List Node) (i : Nat), i < (body.filter isBlock).length →
      ∃ pre b post, body = pre ++ b :: post ∧ isBlock b = true ∧
        (pre.filter isBlock).length = i ∧
        insertAfterNthBlock body i t = pre ++ b :: t :: post
  | [], i, h => by simp at h
  | n :: rest, i, h => by
      unfold insertAfterNthBlock
      by_cases hb : isBlock n = true
      · rw [if_pos hb]
        by_cases hi : i = 0
        · subst hi
          rw [if_pos rfl]
          exact ⟨[], n, rest, rfl, hb, rfl, rfl⟩
        · rw [if_neg hi]
          have hlt : i - 1 < (rest.filter isBlock).length := by
            rw [List.filter_cons_of_pos hb] at h
            simp only [List.length_cons] at h
            omega
          obtain ⟨pre, b, post, h1, h2, h3, h4⟩ :=
            insertAfterNthBlock_spec t rest (i - 1) hlt
          refine ⟨n :: pre, b, post, by rw [h1]; rfl, h2, ?_, by rw [h4]; rfl⟩
          rw [List.filter_cons_of_pos hb]
          simp only [List.length_cons]
          omega
      · rw [if_neg hb]
        have hlt : i < (rest.filter isBlock).length := by
          rw [List.filter_cons_of_neg (by simpa using hb)] at h
          exact h
        obtain ⟨pre, b, post, h1, h2, h3, h4⟩ :=
          insertAfterNthBlock_spec t rest i hlt
        refine ⟨n :: pre, b, post, by rw [h1]; rfl, h2, ?_, by rw [h4]; rfl⟩
        rw [List.filter_cons_of_neg (by simpa using hb)]
        exact h3

theorem removeMarkers_eq_self (l : List Node)
    (h : ∀ n ∈ l, isMarker n = false) : removeMarkers l = l := by
  unfold removeMarkers
  rw [List.filter_eq_self]
  intro n hn
  simp [h n hn]

theorem removeMarkers_cons_marker (k : Nat) (l : List Node) :
    removeMarkers (Node.marker k :: l) = removeMarkers l := rfl

theorem removeMarkers_cons_of_not (n : Node) (l : List Node)
    (h : isMarker n = false) :
    removeMarkers (n :: l) = n :: removeMarkers l := by
  unfold removeMarkers
  rw [List.filter_cons_of_pos (by simp [h])]

theorem removeMarkers_interleave :
    ∀ (body : List Node) (k : Nat),
      removeMarkers (interleaveMarkers body k) = removeMarkers body
  | [], _ => rfl
  | n :: rest, k => by
      show removeMarkers (n :: Node.marker k :: interleaveMarkers rest (k + 1)) =
        removeMarkers (n :: rest)
      by_cases hm : isMarker n = true
      · cases n with
        | marker j =>
            rw [removeMarkers_cons_marker, removeMarkers_cons_marker,
              removeMarkers_cons_marker]
            exact removeMarkers_interleave rest (k + 1)
        | block a b => simp [isMarker] at hm
        | other a => simp [isMarker] at hm
        | tool a => simp [isMarker] at hm
      · have hm2 : isMarker n = false := by simpa using hm
        rw [removeMarkers_cons_of_not n _ hm2, removeMarkers_cons_marker,
          removeMarkers_cons_of_not n _ hm2]
        rw [removeMarkers_interleave rest (k + 1)]

theorem removeMarkers_addInsertionMarkers (body : List Node)
    (h : ∀ n ∈ body, isMarker n = false) :
    removeMarkers (addInsertionMarkers body) = body := by
  unfold addInsertionMarkers
  split
  · unfold removeMarkers
    rw [List.filter_append]
    rw [show List.filter (fun n => !isMarker n) [Node.marker 1] = [] from rfl]
    rw [List.append_nil]
    exact removeMarkers_eq_self body h
  · show removeMarkers (Node.marker 1 :: interleaveMarkers body 2) = body
    rw [removeMarkers_cons_marker, removeMarkers_interleave body 2]
    exact removeMarkers_eq_self body h

theorem replaceFirst_split (p : Node → Bool) (t : Node)
    (hp : ∀ n, p n = true → isMarker n = true) (ht : isMarker t = false) :
    ∀ L, L.any p = true →
      ∃ pre post, removeMarkers L = pre ++ post ∧
        removeMarkers (replaceFirst p t L) = pre ++ t :: post
  | [], h => by simp at h
  | n :: rest, h => by
      unfold replaceFirst
      by_cases hn : p n = true
      · rw [if_pos hn]
        have hm := hp n hn
        cases n with
        | marker j =>
            refine ⟨[], removeMarkers rest, ?_, ?_⟩
            · rw [removeMarkers_cons_marker]
              rfl
            · rw [removeMarkers_cons_of_not t _ ht]
              rfl
        | block a b => simp [isMarker] at hm
        | other a => simp [isMarker] at hm
        | tool a => simp [isMarker] at hm
      · rw [if_neg hn]
        have hany : rest.any p = true := by
          rw [List.any_cons] at h
          rcases Bool.or_eq_true_iff.mp h with h1 | h1
          · exact absurd h1 hn
          · exact h1
        obtain ⟨pre, post, h1, h2⟩ := replaceFirst_split p t hp ht rest hany
        by_cases hm : isMarker n = true
        · cases n with
          | marker j =>
              rw [removeMarkers_cons_marker, removeMarkers_cons_marker]
              exact ⟨pre, post, h1, h2⟩
          | block a b => simp [isMarker] at hm
          | other a => simp [isMarker] at hm
          | tool a => simp [isMarker] at hm
        · have hm2 : isMarker n = false := by simpa using hm
          rw [removeMarkers_cons_of_not n _ hm2,
            removeMarkers_cons_of_not n _ hm2]
          exact ⟨n :: pre, post, by rw [h1]; rfl, by rw [h2]; rfl⟩

theorem countP_insert (pre post : List Node) (t : Node) (ht : isTool t = true) :
    (pre ++ t :: post).countP isTool = (pre ++ post).countP isTool + 1 := by
  simp [List.countP_append, List.countP_cons, ht]
  omega

/-- C3: for every body, every outcome of the numbered-block placement
decision (`resp` covers a response text with any content and a thrown call)
and every outcome of the marker placement decision (`decision` covers a
validated marker id and the `null` produced by malformed output or a thrown
call), both inserters return the original body with the inserted tool
spliced in at exactly one position: no content is dropped, the tool occurs
exactly once more than before, and both embeddings are total functions
(no throwing path).  The body is assumed free of marker comments (the final
cleanup of `insertShortcodeIntoContent` deletes marker-shaped comments
wherever they come from, including the original content). -/
theorem insertion_preserves_content (body : List Node) (resp : AiResult)
    (decision : Option String) (snippet shortcode : String)
    (hm : ∀ n ∈ body, isMarker n = false) :
    (∃ pre post, body = pre ++ post ∧
      insertSnippetIntoContent body resp snippet =
        pre ++ Node.tool snippet :: post) ∧
    (∃ pre post, body = pre ++ post ∧
      insertShortcodeIntoContent body decision shortcode =
        pre ++ Node.tool shortcode :: post) ∧
    (insertSnippetIntoContent body resp snippet).countP isTool =
      body.countP isTool + 1 ∧
    (insertShortcodeIntoContent body decision shortcode).countP isTool =
      body.countP isTool + 1 := by
  have happ : removeMarkers (body ++ [Node.tool shortcode]) =
      body ++ [Node.tool shortcode] := by
    apply removeMarkers_eq_self
    intro n hn
    rcases List.mem_append.mp hn with h1 | h1
    · exact hm n h1
    · rw [List.mem_singleton.mp h1]
      rfl
  have P1 : ∃ pre post, body = pre ++ post ∧
      insertSnippetIntoContent body resp snippet =
        pre ++ Node.tool snippet :: post := by
    unfold insertSnippetIntoContent
    dsimp only
    split
    · exact insertAfterNthBlock_split _ body _
    · exact ⟨body, [], by simp, by simp⟩
  have P2 : ∃ pre post, body = pre ++ post ∧
      insertShortcodeIntoContent body decision shortcode =
        pre ++ Node.tool shortcode :: post := by
    unfold insertShortcodeIntoContent
    cases decision with
    | none =>
        refine ⟨body, [], by simp, ?_⟩
        simpa using happ
    | some m =>
        dsimp only
        split
        · rename_i hany
          obtain ⟨pre, post, h1, h2⟩ := replaceFirst_split
            (isMarkerNamed (jsTrim m)) (Node.tool shortcode)
            (fun n hn => by
              cases n with
              | marker k => rfl
              | block a b => simp [isMarkerNamed] at hn
              | other a => simp [isMarkerNamed] at hn
              | tool a => simp [isMarkerNamed] at hn)
            rfl (addInsertionMarkers body) hany
          rw [removeMarkers_addInsertionMarkers body hm] at h1
          exact ⟨pre, post, h1, h2⟩
        · refine ⟨body, [], by simp, ?_⟩
          simpa using happ
  refine ⟨P1, P2, ?_, ?_⟩
  · obtain ⟨pre, post, h1, h2⟩ := P1
    rw [h2, h1]
    exact countP_insert pre post _ rfl
  · obtain ⟨pre, post, h1, h2⟩ := P2
    rw [h2, h1]
    exact countP_insert pre post _ rfl

theorem insertion_preserves_content_witness :
    (∀ n ∈ [Node.block "p" "x", Node.other "y"], isMarker n = false) ∧
    ((∃ pre post, [Node.block "p" "x", Node.other "y"] = pre ++ post ∧
      insertSnippetIntoContent [Node.block "p" "x", Node.other "y"]
        .threw "s" = pre ++ Node.tool "s" :: post) ∧
    (∃ pre post, [Node.block "p" "x", Node.other "y"] = pre ++ post ∧
      insertShortcodeIntoContent [Node.block "p" "x", Node.other "y"]
        (some "CFORGE_MARKER_99") "sc" = pre ++ Node.tool "sc" :: post) ∧
    (insertSnippetIntoContent [Node.block "p" "x", Node.other "y"]
        .threw "s").countP isTool =
      ([Node.block "p" "x", Node.other "y"] : List Node).countP isTool + 1 ∧
    (insertShortcodeIntoContent [Node.block "p" "x", Node.other "y"]
        (some "CFORGE_MARKER_99") "sc").countP isTool =
      ([Node.block "p" "x", Node.other "y"] : List Node).countP isTool + 1) :=
  ⟨by decide, insertion_preserves_content _ .threw (some "CFORGE_MARKER_99")
    "s" "sc" (by decide)⟩

/-- Failure of the numbered-block placement decision, as the claim lists
the cases: the digit-stripped response parses to `NaN`, the parsed number
lies outside `[1, n]`, or the call threw. -/
def placementFailed (resp : AiResult) (n : Nat) : Prop :=
  match resp with
  | .threw => True
  | .ok t =>
      parseIntJS (stripNonDigits t) = none ∨
        ∃ c, parseIntJS (stripNonDigits t) = some c ∧ (c < 1 ∨ (n : Int) < c)

theorem insertionIndexOf_failed (resp : AiResult) (n : Nat) (h2 : 2 ≤ n)
    (hf : placementFailed resp n) :
    insertionIndexOf resp n = ((n / 2 : Nat) : Int) := by
  unfold insertionIndexOf
  rw [if_neg (by omega)]
  cases resp with
  | threw => rfl
  | ok t =>
      unfold placementFailed at hf
      dsimp only
      rcases hf with hp | ⟨c, hp, hc⟩
      · rw [hp]
        simp
      · rw [hp]
        dsimp only
        have hneg : ¬(0 < c ∧ c ≤ (n : Int)) := by
          rcases hc with hcc | hcc <;> omega
        rw [if_neg hneg]
        simp

/-- C8 (amended): in `insertSnippetIntoContent`, when the placement decision
fails and at least 2 blocks are enumerated, the snippet is inserted
immediately after the block at 0-based index `floor(n / 2)`; with 0 blocks
it is appended at the end of the document; with exactly 1 block it is
inserted immediately after that block — which is the end of the document
only when nothing follows the block. -/
theorem insertSnippet_fallback_policy (body : List Node) (resp : AiResult)
    (s : String) :
    (2 ≤ (body.filter isBlock).length →
      placementFailed resp (body.filter isBlock).length →
      ∃ pre b post, body = pre ++ b :: post ∧ isBlock b = true ∧
        (pre.filter isBlock).length = (body.filter isBlock).length / 2 ∧
        insertSnippetIntoContent body resp s =
          pre ++ b :: Node.tool s :: post) ∧
    ((body.filter isBlock).length = 0 →
      insertSnippetIntoContent body resp s = body ++ [Node.tool s]) ∧
    ((body.filter isBlock).length = 1 →
      insertSnippetIntoContent body resp s =
        insertAfterNthBlock body 0 (Node.tool s)) := by
  refine ⟨fun h2 hf => ?_, fun h0 => ?_, fun h1 => ?_⟩
  · have hidx := insertionIndexOf_failed resp _ h2 hf
    have hlt : (body.filter isBlock).length / 2 <
        (body.filter isBlock).length := by omega
    obtain ⟨pre, b, post, ha, hb, hc, hd⟩ :=
      insertAfterNthBlock_spec (Node.tool s) body
        ((body.filter isBlock).length / 2) hlt
    refine ⟨pre, b, post, ha, hb, hc, ?_⟩
    unfold insertSnippetIntoContent
    dsimp only
    rw [hidx]
    rw [if_pos (by constructor <;> [positivity; exact_mod_cast hlt])]
    rw [show (((body.filter isBlock).length / 2 : Nat) : Int).toNat =
      (body.filter isBlock).length / 2 from by omega]
    exact hd
  · unfold insertSnippetIntoContent
    dsimp only
    have hidx : insertionIndexOf resp (List.filter isBlock body).length = -1 := by
      unfold insertionIndexOf
      rw [h0]
      norm_num
    rw [hidx]
    rw [if_neg (fun hcon => absurd hcon.1 (by norm_num))]
  · unfold insertSnippetIntoContent
    dsimp only
    have hidx : insertionIndexOf resp (List.filter isBlock body).length = 0 := by
      rw [h1]
      unfold insertionIndexOf
      rw [if_pos (by omega)]
      norm_num
    rw [hidx]
    rw [if_pos ⟨le_refl 0, by rw [h1]; norm_num⟩]
    rfl

theorem insertSnippet_fallback_policy_witness :
    (2 ≤ ([Node.block "p" "a", Node.other "t", Node.block "h2" "b",
        Node.block "p" "c"].filter isBlock).length ∧
      placementFailed (.ok "99") ([Node.block "p" "a", Node.other "t",
        Node.block "h2" "b", Node.block "p" "c"].filter isBlock).length) ∧
    ∃ pre b post,
      [Node.block "p" "a", Node.other "t", Node.block "h2" "b",
        Node.block "p" "c"] = pre ++ b :: post ∧ isBlock b = true ∧
      (pre.filter isBlock).length = ([Node.block "p" "a", Node.other "t",
        Node.block "h2" "b", Node.block "p" "c"].filter isBlock).length / 2 ∧
      insertSnippetIntoContent [Node.block "p" "a", Node.other "t",
        Node.block "h2" "b", Node.block "p" "c"] (.ok "99") "s" =
        pre ++ b :: Node.tool "s" :: post :=
  ⟨⟨by decide, Or.inr ⟨99, by decide, Or.inr (by decide)⟩⟩,
    (insertSnippet_fallback_policy [Node.block "p" "a", Node.other "t",
      Node.block "h2" "b", Node.block "p" "c"] (.ok "99") "s").1
      (by decide) (Or.inr ⟨99, by decide, Or.inr (by decide)⟩)⟩

/-- C8 counterexample: with exactly one enumerated block followed by further
content, the snippet is inserted after that block, not appended at the end
of the document as the claim states for fewer than 2 blocks. -/
theorem insertSnippet_one_block_counterexample :
    ([Node.block "p" "a", Node.other "b"].filter isBlock).length = 1 ∧
    insertSnippetIntoContent [Node.block "p" "a", Node.other "b"] .threw "s" =
      [Node.block "p" "a", Node.tool "s", Node.other "b"] ∧
    insertSnippetIntoContent [Node.block "p" "a", Node.other "b"] .threw "s" ≠
      [Node.block "p" "a", Node.other "b"] ++ [Node.tool "s"] := by
  decide

theorem dropWhile_append_cons (p : Char → Bool) :
    ∀ (w : List Char) (c : Char) (rest : List Char),
      (∀ x ∈ w, p x = true) → p c = false →
      (w ++ c :: rest).dropWhile p = c :: rest
  | [], c, rest, _, hc => by simp [List.dropWhile_cons, hc]
  | x :: w, c, rest, hw, hc => by
      have hx : p x = true := hw x (List.mem_cons_self x w)
      simp only [List.cons_append, List.dropWhile_cons, hx, if_true]
      exact dropWhile_append_cons p w c rest
        (fun y hy => hw y (List.mem_cons_of_mem x hy)) hc

theorem takeWhile_append_cons (p : Char → Bool) :
    ∀ (w : List Char) (c : Char) (rest : List Char),
      (∀ x ∈ w, p x = true) → p c = false →
      (w ++ c :: rest).takeWhile p = w
  | [], c, rest, _, hc => by simp [List.takeWhile_cons, hc]
  | x :: w, c, rest, hw, hc => by
      have hx : p x = true := hw x (List.mem_cons_self x w)
      simp only [List.cons_append, List.takeWhile_cons, hx, if_true]
      rw [takeWhile_append_cons p w c rest
        (fun y hy => hw y (List.mem_cons_of_mem x hy)) hc]

theorem matchCI_of_ci :
    ∀ (pat n rest : List Char),
      n.map Char.toLower = pat.map Char.toLower →
      matchCI pat (n ++ rest) = some rest
  | [], n, rest, h => by
      have : n = [] := by simpa using h
      subst this
      rfl
  | p :: ps, n, rest, h => by
      cases n with
      | nil => simp at h
      | cons c cs =>
          simp only [List.map_cons, List.cons.injEq] at h
          simp only [List.cons_append, matchCI, h.1, if_pos rfl]
          exact matchCI_of_ci ps cs rest h.2

theorem wsChar_toLower_self (c : Char) (h : wsChar c = true) :
    c.toLower = c := by
  unfold wsChar at h
  simp only [Bool.or_eq_true, decide_eq_true_eq] at h
  rcases h with ((((rfl | rfl) | rfl) | rfl) | rfl) | rfl <;> decide

theorem not_ws_of_toLower (c tgt : Char) (h : c.toLower = tgt)
    (htgt : wsChar tgt = false) : wsChar c = false := by
  by_contra hc
  have hc2 : wsChar c = true := by
    cases hx : wsChar c
    · exact absurd hx hc
    · rfl
  rw [wsChar_toLower_self c hc2] at h
  subst h
  rw [hc2] at htgt
  exact absurd htgt (by simp)

theorem wsBacktrack_of_drop (s : List Char) (m : Nat) (r : List Char)
    (h : lazyDotToBracket (s.drop m) = some r) : wsBacktrack s m = some r := by
  cases m with
  | zero => simpa using h
  | succ k =>
      unfold wsBacktrack
      rw [h]

theorem tailMatch_ws_bracket (w : List Char) (suf : List Char)
    (hw : ∀ x ∈ w, wsChar x = true) :
    tailMatch (w ++ ']' :: suf) = some suf := by
  unfold tailMatch
  rw [takeWhile_append_cons wsChar w ']' suf hw (by decide)]
  apply wsBacktrack_of_drop
  rw [List.drop_left]
  rfl

theorem not_digit_of_ws (c : Char) (h : wsChar c = true) :
    c.isDigit = false := by
  cases hx : c.isDigit
  · rfl
  · rw [not_wsChar_of_isDigit c hx] at h
    exact absurd h (by simp)

theorem optQuote_quote (q : Char) (r : List Char)
    (hq : q = '"' ∨ q = '\'') : optQuote (q :: r) = r := by
  unfold optQuote
  dsimp only
  rw [if_pos hq]

theorem optQuote_not_quote (c : Char) (r : List Char)
    (hc : ¬(c = '"' ∨ c = '\'')) : optQuote (c :: r) = c :: r := by
  unfold optQuote
  dsimp only
  rw [if_neg hc]

theorem shortcodeMatchAt_token
    (w1 w2 w3 w4 w5 name idTok q1 q2 suf : List Char)
    (hw1 : ∀ x ∈ w1, wsChar x = true) (hw2 : ∀ x ∈ w2, wsChar x = true)
    (hw3 : ∀ x ∈ w3, wsChar x = true) (hw4 : ∀ x ∈ w4, wsChar x = true)
    (hw5 : ∀ x ∈ w5, wsChar x = true) (hw2ne : w2 ≠ [])
    (hname : name.map Char.toLower =
      "contentforge_tool".data.map Char.toLower)
    (hid : idTok.map Char.toLower = "id".data.map Char.toLower)
    (hq1 : q1 = [] ∨ q1 = ['"'] ∨ q1 = ['\''])
    (hq2 : q2 = [] ∨ q2 = ['"'] ∨ q2 = ['\'']) :
    shortcodeMatchAt ('[' :: (w1 ++ (name ++ (w2 ++ (idTok ++ (w3 ++ ('=' :: (w4 ++ (q1 ++ ('4' :: ('2' :: (q2 ++ (w5 ++ (']' :: suf)))))))))))))) = some (['4', '2'], suf) := by
  obtain ⟨n0, name1, rfl⟩ : ∃ n0 name1, name = n0 :: name1 := by
    cases name with
    | nil => exact absurd hname (by decide)
    | cons a b => exact ⟨a, b, rfl⟩
  have hn0 : n0.toLower = 'c' := by
    simpa using congrArg (fun l => l.head?) hname
  obtain ⟨i0, id1, rfl⟩ : ∃ i0 id1, idTok = i0 :: id1 := by
    cases idTok with
    | nil => exact absurd hid (by decide)
    | cons a b => exact ⟨a, b, rfl⟩
  have hi0 : i0.toLower = 'i' := by
    simpa using congrArg (fun l => l.head?) hid
  have hn0ws : wsChar n0 = false := not_ws_of_toLower n0 'c' hn0 (by decide)
  have hi0ws : wsChar i0 = false := not_ws_of_toLower i0 'i' hi0 (by decide)
  unfold shortcodeMatchAt
  split
  rotate_left
  · rename_i hno
    exact absurd rfl (hno _)
  rename_i s1 heq
  rw [List.cons.injEq] at heq
  obtain ⟨-, heq2⟩ := heq
  subst heq2
  dsimp only
  simp only [List.cons_append]
  rw [dropWhile_append_cons wsChar w1 n0 _ hw1 hn0ws]
  rw [show (n0 :: (name1 ++ (w2 ++ (i0 :: (id1 ++ (w3 ++ ('=' :: (w4 ++ (q1 ++ ('4' :: ('2' :: (q2 ++ (w5 ++ (']' :: suf)))))))))))))) = ((n0 :: name1) ++ (w2 ++ (i0 :: (id1 ++ (w3 ++ ('=' :: (w4 ++ (q1 ++ ('4' :: ('2' :: (q2 ++ (w5 ++ (']' :: suf))))))))))))) from rfl]
  rw [matchCI_of_ci _ _ _ hname]
  dsimp only
  rw [takeWhile_append_cons wsChar w2 i0 _ hw2 hi0ws]
  rw [show w2.isEmpty = false from by
    cases w2 with
    | nil => exact absurd rfl hw2ne
    | cons a b => rfl]
  rw [if_neg (by simp)]
  rw [dropWhile_append_cons wsChar w2 i0 _ hw2 hi0ws]
  rw [show (i0 :: (id1 ++ (w3 ++ ('=' :: (w4 ++ (q1 ++ ('4' :: ('2' :: (q2 ++ (w5 ++ (']' :: suf))))))))))) = ((i0 :: id1) ++ (w3 ++ ('=' :: (w4 ++ (q1 ++ ('4' :: ('2' :: (q2 ++ (w5 ++ (']' :: suf)))))))))) from rfl]
  rw [matchCI_of_ci _ _ _ hid]
  dsimp only
  rw [dropWhile_append_cons wsChar w3 '=' _ hw3 (by decide)]
  split
  rotate_left
  · rename_i hno
    exact absurd rfl (hno _)
  rename_i s7 heq
  rw [List.cons.injEq] at heq
  obtain ⟨-, heq2⟩ := heq
  subst heq2
  have hs9 : optQuote (List.dropWhile wsChar (w4 ++ (q1 ++ ('4' :: ('2' :: (q2 ++ (w5 ++ (']' :: suf)))))))) = ('4' :: ('2' :: (q2 ++ (w5 ++ (']' :: suf))))) := by
    rcases hq1 with rfl | rfl | rfl
    · simp only [List.nil_append]
      rw [dropWhile_append_cons wsChar w4 '4' _ hw4 (by decide)]
      exact optQuote_not_quote '4' _ (by decide)
    · simp only [List.cons_append, List.nil_append]
      rw [dropWhile_append_cons wsChar w4 '"' _ hw4 (by decide)]
      exact optQuote_quote '"' _ (Or.inl rfl)
    · simp only [List.cons_append, List.nil_append]
      rw [dropWhile_append_cons wsChar w4 '\'' _ hw4 (by decide)]
      exact optQuote_quote '\'' _ (Or.inr rfl)
  rw [hs9]
  have hX4 : ∃ c0 r0, (q2 ++ (w5 ++ (']' :: suf))) = c0 :: r0 ∧ c0.isDigit = false ∧
      optQuote (q2 ++ (w5 ++ (']' :: suf))) = (w5 ++ (']' :: suf)) := by
    rcases hq2 with rfl | rfl | rfl
    · simp only [List.nil_append]
      cases hw : w5 with
      | nil =>
          subst hw
          simp only [List.nil_append]
          refine ⟨']', suf, rfl, by decide, ?_⟩
          exact optQuote_not_quote ']' _ (by decide)
      | cons v w5t =>
          have hv : wsChar v = true := by
            rw [hw] at hw5
            exact hw5 v (List.mem_cons_self v w5t)
          subst hw
          simp only [List.cons_append]
          refine ⟨v, w5t ++ (']' :: suf), rfl, not_digit_of_ws v hv, ?_⟩
          apply optQuote_not_quote
          rintro (rfl | rfl) <;> simp [wsChar] at hv
    · simp only [List.cons_append, List.nil_append]
      exact ⟨'"', w5 ++ (']' :: suf), rfl, by decide,
        optQuote_quote '"' _ (Or.inl rfl)⟩
    · simp only [List.cons_append, List.nil_append]
      exact ⟨'\'', w5 ++ (']' :: suf), rfl, by decide,
        optQuote_quote '\'' _ (Or.inr rfl)⟩
  obtain ⟨c0, r0, hX4eq, hc0, hoq⟩ := hX4
  have hds : List.takeWhile Char.isDigit ('4' :: ('2' :: (q2 ++ (w5 ++ (']' :: suf))))) = ['4', '2'] := by
    rw [List.takeWhile_cons_of_pos (by decide),
      List.takeWhile_cons_of_pos (by decide), hX4eq,
      List.takeWhile_cons_of_neg (by simp [hc0])]
  rw [hds]
  rw [show (['4', '2'] : List Char).isEmpty = false from rfl]
  rw [if_neg (by simp)]
  rw [show (['4', '2'] : List Char).length = 2 from rfl]
  rw [show List.drop 2 ('4' :: ('2' :: (q2 ++ (w5 ++ (']' :: suf))))) = (q2 ++ (w5 ++ (']' :: suf))) from rfl]
  rw [hoq]
  rw [tailMatch_ws_bracket w5 suf hw5]

theorem shortcodeMatchAt_not_bracket (c : Char) (l : List Char)
    (hc : c ≠ '[') : shortcodeMatchAt (c :: l) = none := by
  unfold shortcodeMatchAt
  split
  · rename_i s1 heq
    rw [List.cons.injEq] at heq
    exact absurd heq.1 hc
  · rfl

theorem shortcodeSearch_append (p : List Char) (s cap rest : List Char)
    (hp : '[' ∉ p) (h : shortcodeMatchAt s = some (cap, rest)) :
    shortcodeSearch (p ++ s) = some (p, cap, rest) := by
  induction p with
  | nil =>
      cases s with
      | nil => exact absurd h (by simp [shortcodeMatchAt])
      | cons c cs =>
          show shortcodeSearch (c :: cs) = some ([], cap, rest)
          unfold shortcodeSearch
          rw [h]
  | cons c p2 ih =>
      have hc : c ≠ '[' := fun hh => hp (hh ▸ List.mem_cons_self c p2)
      show shortcodeSearch (c :: (p2 ++ s)) = some (c :: p2, cap, rest)
      unfold shortcodeSearch
      rw [shortcodeMatchAt_not_bracket c _ hc]
      rw [ih (fun hh => hp (List.mem_cons_of_mem c hh))]
      rfl

theorem removeAll_no_bracket : ∀ l : List Char, '[' ∉ l → removeAll l = l
  | [], _ => by rw [removeAll]
  | c :: cs, h => by
      rw [removeAll]
      rw [shortcodeMatchAt_not_bracket c cs
        (fun hh => h (hh ▸ List.mem_cons_self c cs))]
      rw [removeAll_no_bracket cs (fun hh => h (List.mem_cons_of_mem c hh))]

theorem removeAll_skip (s cap rest : List Char)
    (h : shortcodeMatchAt s = some (cap, rest)) :
    ∀ p : List Char, '[' ∉ p → removeAll (p ++ s) = p ++ removeAll rest
  | [], _ => by
      cases s with
      | nil => exact absurd h (by simp [shortcodeMatchAt])
      | cons c cs =>
          show removeAll (c :: cs) = removeAll rest
          rw [removeAll]
          rw [h]
  | c :: p2, hp => by
      have hc : c ≠ '[' := fun hh => hp (hh ▸ List.mem_cons_self c p2)
      show removeAll (c :: (p2 ++ s)) = c :: (p2 ++ removeAll rest)
      rw [removeAll]
      rw [shortcodeMatchAt_not_bracket c _ hc]
      rw [removeAll_skip s cap rest h p2
        (fun hh => hp (List.mem_cons_of_mem c hh))]

/-- C6 (amended): for content of the form `prefix ++ token ++ suffix`,
where `token` is any tolerated variation of `[contentforge_tool id="42"]`
(arbitrary surrounding whitespace `w1`–`w5`, independent opening and closing
quote characters `"` or `\x27` or none, any letter case of the two words)
and the character `[` occurs nowhere in the prefix or the suffix, the
detection regex captures the digits and `parseInt` yields `toolId = 42`,
replacing every removal-regex match with the empty string deletes exactly
the token leaving prefix and suffix byte-identical, and the two regexes
accept exactly the same matches (the removal regex is the detection regex
without its capture group). -/
theorem shortcode_round_trip
    (p w1 w2 w3 w4 w5 name idTok q1 q2 suf : List Char)
    (hp : '[' ∉ p) (hsuf : '[' ∉ suf)
    (hw1 : ∀ x ∈ w1, wsChar x = true) (hw2 : ∀ x ∈ w2, wsChar x = true)
    (hw3 : ∀ x ∈ w3, wsChar x = true) (hw4 : ∀ x ∈ w4, wsChar x = true)
    (hw5 : ∀ x ∈ w5, wsChar x = true) (hw2ne : w2 ≠ [])
    (hname : name.map Char.toLower =
      "contentforge_tool".data.map Char.toLower)
    (hid : idTok.map Char.toLower = "id".data.map Char.toLower)
    (hq1 : q1 = [] ∨ q1 = ['"'] ∨ q1 = ['\''])
    (hq2 : q2 = [] ∨ q2 = ['"'] ∨ q2 = ['\'']) :
    detectToolId (p ++ ('[' :: (w1 ++ (name ++ (w2 ++ (idTok ++ (w3 ++ ('=' :: (w4 ++ (q1 ++ ('4' :: ('2' :: (q2 ++ (w5 ++ (']' :: suf))))))))))))))) = some 42 ∧
    removeAll (p ++ ('[' :: (w1 ++ (name ++ (w2 ++ (idTok ++ (w3 ++ ('=' :: (w4 ++ (q1 ++ ('4' :: ('2' :: (q2 ++ (w5 ++ (']' :: suf))))))))))))))) = p ++ suf ∧
    (∀ s : List Char,
      SHORTCODE_REMOVAL_REGEX s = (SHORTCODE_DETECTION_REGEX s).map Prod.snd) := by
  have hm : shortcodeMatchAt ('[' :: (w1 ++ (name ++ (w2 ++ (idTok ++ (w3 ++ ('=' :: (w4 ++ (q1 ++ ('4' :: ('2' :: (q2 ++ (w5 ++ (']' :: suf)))))))))))))) = some (['4', '2'], suf) :=
    shortcodeMatchAt_token w1 w2 w3 w4 w5 name idTok q1 q2 suf
      hw1 hw2 hw3 hw4 hw5 hw2ne hname hid hq1 hq2
  refine ⟨?_, ?_, fun s => rfl⟩
  · unfold detectToolId
    rw [shortcodeSearch_append p _ _ _ hp hm]
    rfl
  · rw [removeAll_skip _ _ _ hm p hp]
    rw [removeAll_no_bracket suf hsuf]

/-- C6 counterexample: a content string that does contain the token
`[contentforge_tool id="42"]` verbatim, yet whose first regex match is an
earlier shortcode: detection extracts `toolId = 7`, not `42`, and global
removal deletes both tokens, so the surrounding content is not
byte-identical.  This refutes the claim as universally quantified over all
containing contents. -/
theorem shortcode_round_trip_counterexample :
    "[contentforge_tool id=7][contentforge_tool id=\x2242\x22]".data =
      "[contentforge_tool id=7]".data ++
        "[contentforge_tool id=\x2242\x22]".data ∧
    detectToolId
      "[contentforge_tool id=7][contentforge_tool id=\x2242\x22]".data =
      some 7 ∧
    removeAll
      "[contentforge_tool id=7][contentforge_tool id=\x2242\x22]".data =
      [] := by
  refine ⟨by decide, by decide, ?_⟩
  have h1 : shortcodeMatchAt
      "[contentforge_tool id=7][contentforge_tool id=\x2242\x22]".data =
      some (['7'], "[contentforge_tool id=\x2242\x22]".data) := by decide
  have h2 : shortcodeMatchAt "[contentforge_tool id=\x2242\x22]".data =
      some (['4', '2'], []) := by decide
  have e1 : removeAll
      "[contentforge_tool id=7][contentforge_tool id=\x2242\x22]".data =
      [] ++ removeAll "[contentforge_tool id=\x2242\x22]".data :=
    removeAll_skip _ _ _ h1 [] (by simp)
  have e2 : removeAll "[contentforge_tool id=\x2242\x22]".data =
      [] ++ removeAll [] := removeAll_skip _ _ _ h2 [] (by simp)
  rw [e1, e2]
  rw [removeAll]
  simp

theorem shortcode_round_trip_witness :
    ('[' ∉ "before ".data) ∧ ('[' ∉ " after".data) ∧
    (detectToolId ("before ".data ++ ('[' :: (([] : List Char) ++ ("CONTENTFORGE_tool".data ++ ([' '] ++ ("ID".data ++ (([] : List Char) ++ ('=' :: ([' '] ++ (['"'] ++ ('4' :: ('2' :: (['\''] ++ ([' '] ++ (']' :: " after".data))))))))))))))) = some 42 ∧
     removeAll ("before ".data ++ ('[' :: (([] : List Char) ++ ("CONTENTFORGE_tool".data ++ ([' '] ++ ("ID".data ++ (([] : List Char) ++ ('=' :: ([' '] ++ (['"'] ++ ('4' :: ('2' :: (['\''] ++ ([' '] ++ (']' :: " after".data))))))))))))))) = "before ".data ++ " after".data ∧
     (∀ s : List Char,
       SHORTCODE_REMOVAL_REGEX s =
         (SHORTCODE_DETECTION_REGEX s).map Prod.snd)) :=
  ⟨by decide, by decide,
    shortcode_round_trip "before ".data ([] : List Char) [' ']
      ([] : List Char) [' '] [' '] "CONTENTFORGE_tool".data "ID".data
      ['"'] ['\''] " after".data (by decide) (by decide) (by decide)
      (by decide) (by decide) (by decide) (by decide) (by decide)
      (by decide) (by decide) (by decide) (by decide)⟩

theorem map_id_of_mem {α : Type} (f : α → α) :
    ∀ l : List α, (∀ x ∈ l, f x = x) → l.map f = l
  | [], _ => rfl
  | x :: xs, h => by
      simp only [List.map_cons]
      rw [h x (List.mem_cons_self x xs),
        map_id_of_mem f xs (fun y hy => h y (List.mem_cons_of_mem x hy))]

theorem questionFilter_of_mem (data q : JSValue)
    (h : q ∈ filteredQuestions data) : questionFilter q = true := by
  unfold filteredQuestions at h
  split at h
  · exact List.of_mem_filter h
  · exact absurd h (List.not_mem_nil q)

theorem questionFilter_options (q : JSValue) (h : questionFilter q = true) :
    ∃ os, getField q "options" = .vArr os ∧ 1 < os.length := by
  unfold questionFilter at h
  simp only [Bool.and_eq_true] at h
  obtain ⟨-, h2⟩ := h
  revert h2
  split
  · rename_i os heq
    exact fun h2 => ⟨os, heq, by simpa using h2⟩
  · simp

theorem getField_toJS (s : QuizDataS) :
    getField s.toJS "quizTitle" = s.quizTitle ∧
    getField s.toJS "quizType" = .vStr (match s.quizType with
      | .knowledgeCheck => "knowledge-check"
      | .personality => "personality") ∧
    getField s.toJS "questions" = .vArr s.questions ∧
    getField s.toJS "results" = (match s.results with
      | some rs => .vArr rs
      | none => .vUndefined) ∧
    getField s.toJS "outcomes" = (match s.outcomes with
      | some os => .vArr os
      | none => .vUndefined) := by
  unfold QuizDataS.toJS
  refine ⟨?_, ?_, ?_, ?_, ?_⟩ <;> simp [getField, lookupLast]

theorem sanitize_question_shape (data q : JSValue)
    (hkc : (sanitizeQuizData data).quizType = .knowledgeCheck)
    (hq : q ∈ (sanitizeQuizData data).questions) :
    ∃ (t : String) (os : List String) (i : Int) (e : String), q = .vObj
      [("questionText", .vStr t),
       ("options", .vArr (os.map JSValue.vStr)),
       ("correctAnswerIndex", .vNum i),
       ("explanation", .vStr e)] ∧
      1 < os.length ∧ 0 ≤ i ∧ i < (os.length : Int) := by
  unfold sanitizeQuizData at hkc hq
  by_cases hc : (sanitizedQuestions data).length = 0
  · rw [if_pos hc] at hq
    replace hq : q = fallbackQuestion := by simpa using hq
    subst hq
    exact ⟨"Our AI couldn\x27t create valid questions from this content.",
      ["Try again with creative direction", "Select a different post"], 0,
      "This can happen with very short or abstract posts. Try giving the AI more specific instructions in the \x27Creative Direction\x27 box to guide the generation process.",
      rfl, by decide, by decide, by decide⟩
  · rw [if_neg hc] at hq hkc
    have hqt : quizTypeOf data = .knowledgeCheck := hkc
    have hq2 : q ∈ sanitizedQuestions data := hq
    unfold sanitizedQuestions at hq2
    rw [hqt] at hq2
    simp only [if_pos rfl, List.mem_map] at hq2
    obtain ⟨q0, hq0mem, rfl⟩ := hq2
    have hf : questionFilter q0 = true := questionFilter_of_mem data q0 hq0mem
    obtain ⟨os0, hos0, hlen0⟩ := questionFilter_options q0 hf
    have hkopts : kcOptions q0 = os0 := by
      unfold kcOptions
      rw [hos0]
    refine ⟨jsToString (jsOr (getField q0 "questionText")
        (.vStr "Untitled Question")),
      os0.map (fun o => if truthy o then jsToString o else ""),
      kcFinalIdx q0,
      jsToString (jsOr (getField q0 "explanation")
        (.vStr "No explanation provided.")),
      ?_, by simpa using hlen0, ?_, ?_⟩
    · unfold sanitizeKCQuestion
      rw [hkopts, List.map_map]
      rfl
    · unfold kcFinalIdx
      dsimp only
      split
      · exact le_refl 0
      · split
        · exact le_refl 0
        · rename_i i hcond
          simp only [not_or, not_lt] at hcond
          exact hcond.1
    · unfold kcFinalIdx
      rw [hkopts]
      dsimp only
      have hlen : (1 : Int) < os0.length := by exact_mod_cast hlen0
      split
      · simpa using by omega
      · rename_i i
        split
        · simpa using by omega
        · rename_i hcond
          simp only [not_or, not_lt] at hcond
          simpa using hcond.2

theorem sanitizeKCQuestion_fixed (t : String) (os : List String) (i : Int)
    (e : String) (ht : t ≠ "") (he : e ≠ "")
    (hi0 : 0 ≤ i) (hilen : i < (os.length : Int)) :
    sanitizeKCQuestion (.vObj
      [("questionText", .vStr t),
       ("options", .vArr (os.map JSValue.vStr)),
       ("correctAnswerIndex", .vNum i),
       ("explanation", .vStr e)]) = .vObj
      [("questionText", .vStr t),
       ("options", .vArr (os.map JSValue.vStr)),
       ("correctAnswerIndex", .vNum i),
       ("explanation", .vStr e)] := by
  have hqt : getField (JSValue.vObj
      [("questionText", .vStr t),
       ("options", .vArr (os.map JSValue.vStr)),
       ("correctAnswerIndex", .vNum i),
       ("explanation", .vStr e)]) "questionText" = .vStr t := by
    simp [getField, lookupLast]
  have hop : getField (JSValue.vObj
      [("questionText", .vStr t),
       ("options", .vArr (os.map JSValue.vStr)),
       ("correctAnswerIndex", .vNum i),
       ("explanation", .vStr e)]) "options" = .vArr (os.map JSValue.vStr) := by
    simp [getField, lookupLast]
  have hca : getField (JSValue.vObj
      [("questionText", .vStr t),
       ("options", .vArr (os.map JSValue.vStr)),
       ("correctAnswerIndex", .vNum i),
       ("explanation", .vStr e)]) "correctAnswerIndex" = .vNum i := by
    simp [getField, lookupLast]
  have hex : getField (JSValue.vObj
      [("questionText", .vStr t),
       ("options", .vArr (os.map JSValue.vStr)),
       ("correctAnswerIndex", .vNum i),
       ("explanation", .vStr e)]) "explanation" = .vStr e := by
    simp [getField, lookupLast]
  have hkopts : kcOptions (JSValue.vObj
      [("questionText", .vStr t),
       ("options", .vArr (os.map JSValue.vStr)),
       ("correctAnswerIndex", .vNum i),
       ("explanation", .vStr e)]) = os.map JSValue.vStr := by
    unfold kcOptions
    rw [hop]
  have hidx : kcFinalIdx (JSValue.vObj
      [("questionText", .vStr t),
       ("options", .vArr (os.map JSValue.vStr)),
       ("correctAnswerIndex", .vNum i),
       ("explanation", .vStr e)]) = i := by
    unfold kcFinalIdx
    rw [hca, hkopts]
    dsimp only
    rw [if_neg (by simp)]
    rw [show jsToString (JSValue.vNum i) = intDecimal i from rfl]
    rw [parseIntJS_intDecimal]
    dsimp only
    rw [if_neg (by simp only [List.length_map]; omega)]
  unfold sanitizeKCQuestion
  rw [hqt, hex, hkopts, hidx]
  have hmap : (os.map JSValue.vStr).map
      (fun o => JSValue.vStr (if truthy o then jsToString o else "")) =
      os.map JSValue.vStr := by
    rw [List.map_map]
    apply List.map_congr_left
    intro s hs
    by_cases hse : s = ""
    · subst hse
      simp [Function.comp, truthy, jsToString]
    · simp [Function.comp, truthy, jsToString, hse]
  rw [hmap]
  have hjt : jsOr (JSValue.vStr t) (.vStr "Untitled Question") = .vStr t := by
    unfold jsOr
    rw [if_pos (by simpa [truthy] using ht)]
  have hje : jsOr (JSValue.vStr e) (.vStr "No explanation provided.") =
      .vStr e := by
    unfold jsOr
    rw [if_pos (by simpa [truthy] using he)]
  rw [hjt, hje]
  rfl

theorem questionFilter_shaped (t : String) (os : List String) (i : Int)
    (e : String) (ht : t ≠ "") (hlen : 1 < os.length) :
    questionFilter (.vObj
      [("questionText", .vStr t),
       ("options", .vArr (os.map JSValue.vStr)),
       ("correctAnswerIndex", .vNum i),
       ("explanation", .vStr e)]) = true := by
  unfold questionFilter
  have hqt : getField (JSValue.vObj
      [("questionText", .vStr t),
       ("options", .vArr (os.map JSValue.vStr)),
       ("correctAnswerIndex", .vNum i),
       ("explanation", .vStr e)]) "questionText" = .vStr t := by
    simp [getField, lookupLast]
  have hop : getField (JSValue.vObj
      [("questionText", .vStr t),
       ("options", .vArr (os.map JSValue.vStr)),
       ("correctAnswerIndex", .vNum i),
       ("explanation", .vStr e)]) "options" = .vArr (os.map JSValue.vStr) := by
    simp [getField, lookupLast]
  rw [hqt, hop]
  simp only [truthy, jsTypeofObject, Bool.and_eq_true, decide_eq_true_eq]
  refine ⟨⟨⟨trivial, trivial⟩, ht⟩, by simpa using hlen⟩

theorem hasZeroTier_of_exists (rs : List JSValue)
    (h : ∃ r ∈ rs, getField r "scoreThreshold" = .vNum 0) :
    hasZeroTier rs = true := by
  unfold hasZeroTier
  rw [List.any_eq_true]
  obtain ⟨r, hr, hr0⟩ := h
  exact ⟨r, hr, by simp [hr0]⟩

/-- C5 (amended): sanitizing an already-valid knowledge-check quiz (every
question and every result tier passes its filter, and some tier has
`scoreThreshold = 0`) returns the result tiers exactly as given — the zero
tier is neither altered nor duplicated; and `sanitizeQuizData` is idempotent
on those of its knowledge-check outputs whose questions all carry a
nonempty `questionText` and a nonempty `explanation` (a truthy input field
whose string coercion is empty, such as `[null]`, breaks idempotence). -/
theorem sanitizer_result_tier_idempotence (data : JSValue) :
    (∀ qs rs, getField data "questions" = .vArr qs → qs ≠ [] →
      (∀ q ∈ qs, questionFilter q = true) →
      quizTypeOf data = .knowledgeCheck →
      getField data "results" = .vArr rs →
      (∀ r ∈ rs, resultFilter r = true) →
      (∃ r ∈ rs, getField r "scoreThreshold" = .vNum 0) →
      (sanitizeQuizData data).results = some rs) ∧
    ((sanitizeQuizData data).quizType = .knowledgeCheck →
      (∀ q ∈ (sanitizeQuizData data).questions,
        getField q "questionText" ≠ .vStr "" ∧
        getField q "explanation" ≠ .vStr "") →
      sanitizeQuizData (sanitizeQuizData data).toJS = sanitizeQuizData data) := by
  constructor
  · intro qs rs hqs hne hallq hqt hrs hallr hzero
    have hfq : filteredQuestions data = qs := by
      unfold filteredQuestions
      rw [hqs]
      exact List.filter_eq_self.mpr hallq
    have hsr : sanitizedResults data = some rs := by
      unfold sanitizedResults
      rw [if_pos hqt, hrs]
      dsimp only
      rw [List.filter_eq_self.mpr hallr]
    have hcz : hasZeroTier rs = true := hasZeroTier_of_exists rs hzero
    have hcr : completedResults data = some rs := by
      unfold completedResults
      rw [hsr]
      rw [if_neg (by simp [hcz])]
    have hlen : ¬((sanitizedQuestions data).length = 0) := by
      unfold sanitizedQuestions
      rw [hfq]
      simp only [List.length_map, List.length_eq_zero]
      exact hne
    unfold sanitizeQuizData
    rw [if_neg hlen]
    exact hcr
  · intro hkc hgood
    obtain ⟨rs, hrs, hallr, hzero⟩ := sanitize_kc_results data hkc
    have hout := sanitize_outcomes_none data hkc
    have htit := sanitize_title_truthy data
    have hqne := sanitize_questions_ne_nil data
    obtain ⟨g1, g2, g3, g4, g5⟩ := getField_toJS (sanitizeQuizData data)
    have hfix : ∀ q ∈ (sanitizeQuizData data).questions,
        questionFilter q = true ∧ sanitizeKCQuestion q = q := by
      intro q hq
      obtain ⟨t, os, i, e, rfl, hlen, hi0, hilen⟩ :=
        sanitize_question_shape data q hkc hq
      obtain ⟨hgt, hge⟩ := hgood _ hq
      have ht : t ≠ "" := by
        intro hh
        subst hh
        exact hgt (by simp [getField, lookupLast])
      have he : e ≠ "" := by
        intro hh
        subst hh
        exact hge (by simp [getField, lookupLast])
      exact ⟨questionFilter_shaped t os i e ht hlen,
        sanitizeKCQuestion_fixed t os i e ht he hi0 hilen⟩
    set s := sanitizeQuizData data with hs
    have g2b : getField s.toJS "quizType" = .vStr "knowledge-check" := by
      rw [g2, hkc]
    have g4b : getField s.toJS "results" = .vArr rs := by
      rw [g4, hrs]
    have g5b : getField s.toJS "outcomes" = .vUndefined := by
      rw [g5, hout]
    have hqt2 : quizTypeOf s.toJS = .knowledgeCheck := by
      unfold quizTypeOf
      rw [g2b]
      rw [if_neg (by simp)]
    have hfq2 : filteredQuestions s.toJS = s.questions := by
      unfold filteredQuestions
      rw [g3]
      exact List.filter_eq_self.mpr (fun q hq => (hfix q hq).1)
    have hsq2 : sanitizedQuestions s.toJS = s.questions := by
      unfold sanitizedQuestions
      rw [hfq2, hqt2]
      simp only [if_pos rfl]
      exact map_id_of_mem _ _ (fun q hq => (hfix q hq).2)
    have hsr2 : sanitizedResults s.toJS = some rs := by
      unfold sanitizedResults
      rw [if_pos hqt2, g4b]
      dsimp only
      rw [List.filter_eq_self.mpr hallr]
    have hcr2 : completedResults s.toJS = some rs := by
      unfold completedResults
      rw [hsr2]
      rw [if_neg (by simp [hasZeroTier_of_exists rs hzero])]
    have hso2 : sanitizedOutcomes s.toJS = none := by
      unfold sanitizedOutcomes
      rw [if_neg (by rw [hqt2]; simp)]
    have hlen2 : ¬((sanitizedQuestions s.toJS).length = 0) := by
      rw [hsq2]
      simpa using fun hh => hqne (List.length_eq_zero.mp hh)
    show sanitizeQuizData s.toJS = s
    unfold sanitizeQuizData
    rw [if_neg hlen2]
    rw [hsq2, hcr2, hso2, hqt2, g1]
    have htitle : jsOr s.quizTitle (.vStr "Interactive Quiz") = s.quizTitle := by
      unfold jsOr
      rw [if_pos htit]
    rw [htitle, ← hkc, ← hrs, ← hout]

/-- An input whose only question has a truthy `questionText` (the array
`[null]`) whose string coercion is the empty string. -/
def c5bad : JSValue := .vObj [("questions", .vArr
  [.vObj [("questionText", .vArr [.vNull]),
    ("options", .vArr [.vStr "a", .vStr "b"])]])]

/-- C5 counterexample: sanitizing `c5bad` produces a knowledge-check quiz
whose single question has `questionText = ""`; sanitizing that output again
drops the question and substitutes the fallback quiz, so `sanitizeQuizData`
is not idempotent on its own knowledge-check outputs. -/
theorem sanitizer_not_idempotent_counterexample :
    (sanitizeQuizData c5bad).quizType = QuizType.knowledgeCheck ∧
    sanitizeQuizData (sanitizeQuizData c5bad).toJS ≠ sanitizeQuizData c5bad := by
  decide

def c5q : JSValue := .vObj [("questionText", .vStr "Q"),
  ("options", .vArr [.vStr "a", .vStr "b"]),
  ("correctAnswerIndex", .vNum 1), ("explanation", .vStr "E")]

def c5tier : JSValue := .vObj [("scoreThreshold", .vNum 0),
  ("title", .vStr "T"), ("feedback", .vStr "F")]

def c5valid : JSValue := .vObj [("questions", .vArr [c5q]),
  ("results", .vArr [c5tier])]

theorem sanitizer_result_tier_idempotence_witness :
    (sanitizeQuizData c5valid).results = some [c5tier] ∧
    sanitizeQuizData (sanitizeQuizData c5valid).toJS =
      sanitizeQuizData c5valid :=
  ⟨(sanitizer_result_tier_idempotence c5valid).1 [c5q] [c5tier] (by decide)
    (by decide) (by decide) (by decide) (by decide) (by decide) (by decide),
    (sanitizer_result_tier_idempotence c5valid).2 (by decide) (by decide)⟩
